import Mathlib

set_option maxHeartbeats 1000000

/-!
Shallow embedding of the Local-Subtitle-Translator core: the metadata
cache, per-file processor, batch orchestrator and chunked scheduler of
`src/core.py` and `service.py`, and the progress/ETA estimator of
`src/ui/progress_frame.py`.

Modelling conventions:
* JSON documents (the `.meta.json` sidecar files) are a tree of maps,
  represented as association lists carrying Python-dict update semantics
  (unique keys in every document this program writes; lookups take the
  first binding).
* Machine floats (durations, timestamps, EWMA rates) are exact rationals.
* File-system state per item is an `ItemState` (sidecar document, final
  `.en.srt` content, fallback `.source.srt` content); a batch threads a
  world `ι → ItemState`.
* External collaborators (Whisper transcription, NLLB translation, the
  ffprobe JSON output, `srt.parse`, the uuid supply) are environment
  parameters, exactly at their call interface.
* Wall-clock readings (`time.perf_counter`, `time.time`) carry no
  information the claims depend on; `perf_counter` deltas are modelled
  as 0 and `time.time` as a constant `now` from the environment.
* Best-effort sidecar writes (`_best_effort`) are modelled as succeeding:
  in the embedding the merge/write is total, so the swallowed-exception
  wrapper is the identity.
-/

namespace S2P

/-- JSON values, as stored in the `.meta.json` sidecar files. -/
inductive Json where
  | null : Json
  | bool : Bool → Json
  | num : Rat → Json
  | str : String → Json
  | arr : List Json → Json
  | obj : List (String × Json) → Json

/-- Python `dict.get(k)` on an association-list document (first binding). -/
def lookupKey : List (String × Json) → String → Option Json
  | [], _ => none
  | kv :: rest, key => if kv.1 = key then some kv.2 else lookupKey rest key

/-- Python `d[k] = v`: replace the binding of `k`, or append a new one. -/
def setKey : List (String × Json) → String → Json → List (String × Json)
  | [], key, v => [(key, v)]
  | kv :: rest, key, v =>
      if kv.1 = key then (key, v) :: rest else kv :: setKey rest key v

/-- `isinstance(v, dict)`. -/
def Json.isObj : Json → Bool
  | .obj _ => true
  | _ => false

/-- Python truthiness of a JSON value (`bool(v)`). -/
def Json.truthy : Json → Bool
  | .null => false
  | .bool b => b
  | .num q => decide (q ≠ 0)
  | .str s => decide (s ≠ "")
  | .arr l => !l.isEmpty
  | .obj l => !l.isEmpty

/-- Keys of `b` that all occur in `a` (half of Python dict equality). -/
def keysSub (a b : List (String × Json)) : Bool :=
  b.all (fun kv => (lookupKey a kv.1).isSome)

mutual

/-- Python `==` on JSON values: structural, with order-insensitive
object comparison (`dict.__eq__` compares key sets and values).
`True == 1` style bool/number coercion is not modelled; the documents
this program compares never mix the two at a key. -/
def Json.eqb : Json → Json → Bool
  | .null, .null => true
  | .bool a, .bool b => decide (a = b)
  | .num a, .num b => decide (a = b)
  | .str a, .str b => decide (a = b)
  | .arr a, .arr b => Json.eqbList a b
  | .obj a, .obj b => keysSub a b && Json.eqbVals a b
  | _, _ => false

/-- Elementwise `==` on JSON arrays. -/
def Json.eqbList : List Json → List Json → Bool
  | [], [] => true
  | x :: xs, y :: ys => Json.eqb x y && Json.eqbList xs ys
  | _, _ => false

/-- Every binding of the first object maps to an equal value in the second. -/
def Json.eqbVals : List (String × Json) → List (String × Json) → Bool
  | [], _ => true
  | (k, v) :: rest, b =>
      (match lookupKey b k with
       | some w => Json.eqb v w
       | none => false) && Json.eqbVals rest b

end

mutual

/-- `_deep_merge(dst, src)` of core.py: for each `k, v` in `src`, if `v`
and `dst[k]` are both maps, merge recursively in place; otherwise
`dst[k] = v`. -/
def deepMerge : List (String × Json) → List (String × Json) → List (String × Json)
  | dst, [] => dst
  | dst, (k, v) :: rest => deepMerge (deepMergeStep dst k v) rest

/-- One `k, v` step of `_deep_merge`. -/
def deepMergeStep : List (String × Json) → String → Json → List (String × Json)
  | dst, k, Json.obj s =>
      (match lookupKey dst k with
       | some (Json.obj d) => setKey dst k (Json.obj (deepMerge d s))
       | _ => setKey dst k (Json.obj s))
  | dst, k, v => setKey dst k v

end

/-- `_update_meta`: read the document (a non-map document is replaced by
an empty map), deep-merge the patch, write back atomically. -/
def updateMeta (doc : Json) (patch : List (String × Json)) : Json :=
  match doc with
  | Json.obj d => Json.obj (deepMerge d patch)
  | _ => Json.obj (deepMerge [] patch)

/-- `_read_json`: an empty record for a missing file, `json.loads` of the
contents (empty text read as "\x7b\x7d"), and an empty record when
parsing raises. `parse` is the `json.loads` oracle (`none` = raises). -/
def readJsonFile (parse : String → Option Json) (file : Option String) : Json :=
  match file with
  | none => Json.obj []
  | some text =>
      match parse (if text = "" then "\x7b\x7d" else text) with
      | some j => j
      | none => Json.obj []

/-- Python `int(q)` on a real value: truncation toward zero. -/
def pyInt (q : Rat) : Int :=
  if 0 ≤ q then q.floor else -((-q).floor)

/-- Decimal digits to a number (`none` when a non-digit occurs). -/
def digitsToNat : List Char → Option Nat
  | [] => some 0
  | c :: rest =>
      if c.isDigit then
        (digitsToNat rest).map (fun n => (c.toNat - 48) * 10 ^ rest.length + n)
      else none

/-- Python `float(s)` on the plain decimal strings ffprobe emits
(optional sign, digits, optional fraction); `none` when `float` would
raise. Exponent and inf/nan forms are not modelled — the program never
meets them on the paths the claims cover. -/
def pyFloatOfString (s : String) : Option Rat :=
  let t := s.trim
  let (sign, t) : Rat × String :=
    if t.startsWith "-" then (-1, t.drop 1)
    else if t.startsWith "+" then (1, t.drop 1) else (1, t)
  match t.splitOn "." with
  | [ip] =>
      if ip = "" then none
      else (digitsToNat ip.toList).map (fun n => sign * n)
  | [ip, fp] =>
      if ip = "" && fp = "" then none
      else
        match digitsToNat ip.toList, digitsToNat fp.toList with
        | some n, some f => some (sign * (n + (f : Rat) / 10 ^ fp.length))
        | _, _ => none
  | _ => none

/-- `_to_float(x, default)`: `float(x)`, or the default when it raises.
`x` is the looked-up JSON value (`Json.null` models Python `None`). -/
def pyToFloat (x : Json) (default : Rat) : Rat :=
  match x with
  | Json.num q => q
  | Json.bool b => if b then 1 else 0
  | Json.str s => (pyFloatOfString s).getD default
  | _ => default

/-- `_to_int(x, default)`: `int(float(x))`, or the default when it raises. -/
def pyToInt (x : Json) (default : Int) : Int :=
  match x with
  | Json.num q => pyInt q
  | Json.bool b => if b then 1 else 0
  | Json.str s => match pyFloatOfString s with
                  | some q => pyInt q
                  | none => default
  | _ => default

/-- `x or y` on JSON values (Python truthiness). -/
def pyOr (x y : Json) : Json := if x.truthy then x else y

/-- `d.get(k)` with Python `None` for a missing key. -/
def jGet (d : List (String × Json)) (k : String) : Json :=
  (lookupKey d k).getD Json.null

/-- `_file_sig`: the `(size, mtime)` signature dict of a file. -/
def fileSig (sizeB : Nat) (mtime : Rat) : Json :=
  Json.obj [("size", Json.num sizeB), ("mtime", Json.num mtime)]

/-- The `system.media_id` read of `_ensure_media_id`: the stored id when
it is a string (`isinstance(media_id, str)`). -/
def mediaIdOf (doc : Json) : Option String :=
  match doc with
  | Json.obj d =>
      match lookupKey d "system" with
      | some (Json.obj s) =>
          match lookupKey s "media_id" with
          | some (Json.str m) => some m
          | _ => none
      | _ => none
  | _ => none

/-- `_ensure_media_id`: return the stored id when it is a non-blank
string; otherwise persist a fresh one (`newId`, the uuid4 value) and
return it. The third component records whether a uuid was consumed. -/
def ensureMediaId (doc : Json) (newId : String) : Json × String × Bool :=
  match mediaIdOf doc with
  | some m =>
      if m.trim ≠ "" then (doc, m, false)
      else (updateMeta doc [("system", Json.obj [("media_id", Json.str newId)])], newId, true)
  | none =>
      (updateMeta doc [("system", Json.obj [("media_id", Json.str newId)])], newId, true)

/-- `_set_scan_fields`: merge first/last-seen and last-scanned stamps,
keeping a truthy existing `first_seen_utc`. -/
def setScanFields (doc : Json) (now : Rat) : Json :=
  let sys : Json :=
    match doc with
    | Json.obj d => jGet d "system"
    | _ => Json.obj []
  let scan : List (String × Json) :=
    match sys with
    | Json.obj s =>
        match lookupKey s "scan" with
        | some (Json.obj sc) => sc
        | _ => []
    | _ => []
  let firstSeen := pyOr (jGet scan "first_seen_utc") (Json.num now)
  updateMeta doc
    [("system", Json.obj
       [("scan", Json.obj
          [("first_seen_utc", firstSeen),
           ("last_seen_utc", Json.num now),
           ("last_scanned_utc", Json.num now)])])]

/-- `should_skip_fast`: in skip mode, skip when the final `.en.srt`
already exists; `finalSrtExists` is the file-system view. -/
def shouldSkipFast (existingSrtMode : String) (finalSrtExists : Bool) : Bool :=
  if existingSrtMode ≠ "skip" then false else finalSrtExists

/-- `filter_videos_for_run`: the fast prefilter over a video list. -/
def filterVideosForRun {ι : Type} (existingSrtMode : String)
    (finalSrtExists : ι → Bool) (videos : List ι) : List ι :=
  if existingSrtMode ≠ "skip" then videos
  else videos.filter (fun v => ! shouldSkipFast existingSrtMode (finalSrtExists v))

/-- The slicing loop of `chunked`, for chunk size `s + 1`. -/
def chunkGo (s : Nat) : List α → List (List α)
  | [] => []
  | x :: xs => (x :: xs).take (s + 1) :: chunkGo s (xs.drop s)
  termination_by l => l.length
  decreasing_by simp; omega

/-- `chunked(items, size)`: fixed-size slices with size `max(1, size)`
(`(max 1 size).toNat - 1 + 1 = (max 1 size).toNat` since the max is
at least 1). -/
def chunked (items : List α) (size : Int) : List (List α) :=
  chunkGo ((max 1 size).toNat - 1) items

/-- `isinstance(v, str)` reads used on probe output: the string, else ""
(a truthy non-string here would raise in Python; the probe emits
strings at these keys). -/
def pyStr (x : Json) : String :=
  match x with
  | Json.str s => s
  | _ => ""

/-- `_parse_fps`: "" is 0; `a/b` forms divide (`split("/", 1)`), with a
raised `ValueError`/`ZeroDivisionError` giving 0; otherwise `float`. -/
def parseFps (rate : String) : Rat :=
  if rate = "" then 0
  else
    match rate.splitOn "/" with
    | [] => 0
    | [_] => (pyFloatOfString rate).getD 0
    | a :: rest =>
        match pyFloatOfString a, pyFloatOfString (String.intercalate "/" rest) with
        | some x, some y => if y = 0 then 0 else x / y
        | _, _ => 0

/-- `_stream_language`: `tags.language or "und"`, stripped, else "und". -/
def streamLanguage (stream : List (String × Json)) : String :=
  let tags : List (String × Json) :=
    match pyOr (jGet stream "tags") (Json.obj []) with
    | Json.obj t => t
    | _ => []
  let lang := pyStr (pyOr (jGet tags "language") (Json.str "und"))
  let lang := if lang = "" then "und" else lang
  if lang.trim = "" then "und" else lang.trim

/-- `_stream_default`: `bool(_to_int(disposition.default, 0))`. -/
def streamDefault (stream : List (String × Json)) : Bool :=
  let disp : List (String × Json) :=
    match pyOr (jGet stream "disposition") (Json.obj []) with
    | Json.obj d => d
    | _ => []
  pyToInt ((lookupKey disp "default").getD (Json.num 0)) 0 ≠ 0

/-- `_stream_forced`: `bool(_to_int(disposition.forced, 0))`. -/
def streamForced (stream : List (String × Json)) : Bool :=
  let disp : List (String × Json) :=
    match pyOr (jGet stream "disposition") (Json.obj []) with
    | Json.obj d => d
    | _ => []
  pyToInt ((lookupKey disp "forced").getD (Json.num 0)) 0 ≠ 0

/-- One step of the stream loop of `_parse_minimal_media_data`:
accumulates the first video track and the audio/subtitle track lists. -/
def parseStream (acc : Option Json × List Json × List Json) (stJ : Json) :
    Option Json × List Json × List Json :=
  let (pv, audio, subs) := acc
  match stJ with
  | Json.obj st =>
      let stType := jGet st "codec_type"
      if stType.eqb (Json.str "video") && pv.isNone then
        (some (Json.obj
           [("codec", Json.str (pyStr (pyOr (jGet st "codec_name") (Json.str ""))).trim),
            ("width", Json.num (pyToInt (jGet st "width") 0 : Int)),
            ("height", Json.num (pyToInt (jGet st "height") 0 : Int)),
            ("fps", Json.num (parseFps (pyStr
               (pyOr (jGet st "avg_frame_rate")
                  (pyOr (jGet st "r_frame_rate") (Json.str ""))))))]),
         audio, subs)
      else if stType.eqb (Json.str "audio") then
        (pv,
         audio ++ [Json.obj
           [("codec", Json.str (pyStr (pyOr (jGet st "codec_name") (Json.str ""))).trim),
            ("channels", Json.num (pyToInt (jGet st "channels") 0 : Int)),
            ("language", Json.str (streamLanguage st)),
            ("default", Json.bool (streamDefault st))]],
         subs)
      else if stType.eqb (Json.str "subtitle") then
        (pv, audio,
         subs ++ [Json.obj
           [("codec", Json.str (pyStr (pyOr (jGet st "codec_name") (Json.str ""))).trim),
            ("language", Json.str (streamLanguage st)),
            ("default", Json.bool (streamDefault st)),
            ("forced", Json.bool (streamForced st))]])
      else acc
  | _ => acc

/-- `_parse_minimal_media_data(raw, sig)`: the minimal cached schema,
tagged with the file signature it was computed against. -/
def parseMinimalMediaData (raw : List (String × Json)) (sig : Json) : Json :=
  let fmt : List (String × Json) :=
    match pyOr (jGet raw "format") (Json.obj []) with
    | Json.obj f => f
    | _ => []
  let streams : List Json :=
    match pyOr (jGet raw "streams") (Json.arr []) with
    | Json.arr s => s
    | _ => []
  let container := (pyStr (pyOr (jGet fmt "format_name") (Json.str ""))).trim
  let durationS := pyToFloat (jGet fmt "duration") 0
  let (pv, audio, subs) := streams.foldl parseStream (none, [], [])
  let primaryVideo := pv.getD (Json.obj
    [("codec", Json.str ""), ("width", Json.num 0),
     ("height", Json.num 0), ("fps", Json.num 0)])
  Json.obj
    [("file_sig", sig),
     ("duration_s", Json.num durationS),
     ("container", Json.str container),
     ("video", primaryVideo),
     ("audio_tracks", Json.arr audio),
     ("sub_tracks", Json.arr subs)]

/-- Output of `get_media_data`: the `(data, ok)` pair, the sidecar
document after the call, and whether the external probe ran. -/
structure MediaOut where
  data : Json
  ok : Bool
  meta : Json
  probed : Bool

/-- The probe-and-persist path of `get_media_data` (`raw` empty or the
probe failing yields `({}, False)` with nothing written). -/
def getMediaDataProbe (probeRaw : Option (List (String × Json))) (sig : Json)
    (meta : Json) : MediaOut :=
  match probeRaw with
  | none => { data := Json.obj [], ok := false, meta := meta, probed := true }
  | some raw =>
      if raw.isEmpty then
        { data := Json.obj [], ok := false, meta := meta, probed := true }
      else
        let parsed := parseMinimalMediaData raw sig
        { data := parsed, ok := true,
          meta := updateMeta meta [("data", parsed)], probed := true }

/-- `get_media_data(path)`: the cached `data` sub-tree when its stored
`file_sig` equals the current signature; otherwise probe (`probeRaw` is
the `_ffprobe_json` result, `none` for a failed or empty probe), parse,
persist best-effort, and return the fresh data. -/
def getMediaData (probeRaw : Option (List (String × Json))) (sig : Json)
    (meta : Json) : MediaOut :=
  let cached : Option Json :=
    match meta with
    | Json.obj d => lookupKey d "data"
    | _ => none
  match cached with
  | some (Json.obj d) =>
      if Json.eqb (jGet d "file_sig") sig then
        { data := Json.obj d, ok := true, meta := meta, probed := false }
      else getMediaDataProbe probeRaw sig meta
  | _ => getMediaDataProbe probeRaw sig meta

/-- `has_real_text`: any alphanumeric character in the transcript. -/
def hasRealText (srtText : String) : Bool :=
  srtText.any (fun ch => ch.isAlphanum)

/-- The `WHISPER_TO_NLLB` language mapping table of `src/lang_map.py`. -/
def WHISPER_TO_NLLB : List (String × String) :=
  [("af", "afr_Latn"), ("am", "amh_Ethi"), ("ar", "arb_Arab"),
   ("as", "asm_Beng"), ("az", "azj_Latn"),
   ("ba", "bak_Cyrl"), ("be", "bel_Cyrl"), ("bg", "bul_Cyrl"),
   ("bn", "ben_Beng"), ("bo", "bod_Tibt"), ("br", "bre_Latn"), ("bs", "bos_Latn"),
   ("ca", "cat_Latn"), ("cs", "ces_Latn"), ("cy", "cym_Latn"), ("da", "dan_Latn"),
   ("de", "deu_Latn"), ("el", "ell_Grek"), ("en", "eng_Latn"), ("es", "spa_Latn"),
   ("et", "est_Latn"), ("eu", "eus_Latn"),
   ("fa", "pes_Arab"), ("fi", "fin_Latn"), ("fo", "fao_Latn"), ("fr", "fra_Latn"),
   ("gl", "glg_Latn"),
   ("gu", "guj_Gujr"), ("ha", "hau_Latn"), ("haw", "haw_Latn"), ("he", "heb_Hebr"),
   ("hi", "hin_Deva"), ("hr", "hrv_Latn"), ("ht", "hat_Latn"), ("hu", "hun_Latn"),
   ("hy", "hye_Armn"),
   ("id", "ind_Latn"), ("is", "isl_Latn"), ("it", "ita_Latn"), ("ja", "jpn_Jpan"),
   ("jv", "jav_Latn"), ("jw", "jav_Latn"), ("ka", "kat_Geor"), ("kk", "kaz_Cyrl"),
   ("km", "khm_Khmr"), ("kn", "kan_Knda"), ("ko", "kor_Hang"),
   ("la", "lat_Latn"), ("lb", "ltz_Latn"), ("ln", "lin_Latn"), ("lo", "lao_Laoo"),
   ("lt", "lit_Latn"), ("lv", "lvs_Latn"),
   ("mg", "plt_Latn"), ("mi", "mri_Latn"), ("mk", "mkd_Cyrl"), ("ml", "mal_Mlym"),
   ("mn", "khk_Cyrl"), ("mr", "mar_Deva"), ("ms", "zsm_Latn"), ("mt", "mlt_Latn"),
   ("my", "mya_Mymr"),
   ("ne", "npi_Deva"), ("nl", "nld_Latn"),
   ("no", "nob_Latn"), ("nb", "nob_Latn"), ("nn", "nno_Latn"),
   ("oc", "oci_Latn"), ("pa", "pan_Guru"), ("pl", "pol_Latn"), ("ps", "pbt_Arab"),
   ("pt", "por_Latn"), ("ro", "ron_Latn"), ("ru", "rus_Cyrl"),
   ("sa", "san_Deva"), ("sd", "snd_Arab"), ("si", "sin_Sinh"), ("sk", "slk_Latn"),
   ("sl", "slv_Latn"), ("sn", "sna_Latn"), ("so", "som_Latn"), ("sq", "als_Latn"),
   ("sr", "srp_Cyrl"), ("su", "sun_Latn"), ("sv", "swe_Latn"), ("sw", "swh_Latn"),
   ("ta", "tam_Taml"), ("te", "tel_Telu"), ("tg", "tgk_Cyrl"), ("th", "tha_Thai"),
   ("tk", "tuk_Latn"), ("tl", "tgl_Latn"), ("tr", "tur_Latn"), ("tt", "tat_Cyrl"),
   ("uk", "ukr_Cyrl"), ("ur", "urd_Arab"), ("uz", "uzn_Latn"), ("vi", "vie_Latn"),
   ("yi", "ydd_Hebr"), ("yo", "yor_Latn"),
   ("zh", "zho_Hans"), ("yue", "yue_Hant")]

/-- `WHISPER_TO_NLLB.get(lang)`. -/
def whisperToNllb (lang : String) : Option String :=
  (WHISPER_TO_NLLB.find? (fun kv => kv.1 == lang)).map (fun kv => kv.2)

/-- `MAX_SUBS`, the segment-count ceiling of `process_one_video`. -/
def MAX_SUBS : Nat := 8000

/-- The `Result` dataclass of core.py. -/
structure Result where
  ok : Bool
  message : String
  video : String
  elapsed_s : Rat
  deriving DecidableEq

/-- The keyword configuration of one run (the arguments of
`process_one_video`/`run_batch` that select behaviour). -/
structure Config where
  whisperModel : String
  existingSrtMode : String
  englishOutputMode : String
  toolVersion : String
  translatorModel : String
  deriving DecidableEq

/-- Per-item external facts: the file name, its current stat signature,
the transcription collaborator's outcome for it (`Except` error = the
raised decode exception text), and the probe collaborator's raw JSON. -/
structure ItemEnv where
  name : String
  sizeB : Nat
  mtime : Rat
  transcribe : Except String (String × String)
  probeRaw : Option (List (String × Json))

/-- Run-wide collaborators: `srt.parse` (`none` = raises; cue text list
otherwise), `translate_srt` of the per-language NLLB translator, and the
`time.time()` clock reading. -/
structure Env where
  parseCues : String → Option (List String)
  translate : String → String → String
  now : Rat

/-- The file-system state owned by one video: its sidecar document (the
parsed `.meta.json`; a missing or corrupt file reads as the empty
record, which `Json.obj []` also denotes), the final `.en.srt` content
and the `.source.srt` fallback content (`none` = file absent). -/
structure ItemState where
  meta : Json
  finalSrt : Option String
  fallbackSrt : Option String

/-- The no-speech cached-skip guard of `process_one_video` (skip mode):
`no_speech.detected is True` and its stored `file_sig` equals the
current signature. -/
def noSpeechCachedHit (doc : Json) (sig : Json) : Bool :=
  match doc with
  | Json.obj d =>
      match lookupKey d "system" with
      | some (Json.obj s) =>
          match lookupKey s "no_speech" with
          | some (Json.obj ns) =>
              (match lookupKey ns "detected" with
               | some (Json.bool true) => true
               | _ => false)
              && Json.eqb (jGet ns "file_sig") sig
          | _ => false
      | _ => false
  | _ => false

/-- The `system.subtitle` + `system.no_speech` merge patch written at
the recorded terminals of `process_one_video`. -/
def subtitleRunPatch (cfg : Config) (detectedLang : String)
    (translated wroteEnSrt : Bool) (now : Rat) (sig : Json) :
    List (String × Json) :=
  [("system", Json.obj
     [("subtitle", Json.obj
        [("last_run_utc", Json.num now),
         ("detected_lang", Json.str detectedLang),
         ("translated", Json.bool translated),
         ("wrote_en_srt", Json.bool wroteEnSrt),
         ("whisper_model", Json.str cfg.whisperModel),
         ("translator_model", Json.str cfg.translatorModel),
         ("tool_version", Json.str cfg.toolVersion),
         ("english_output_mode", Json.str cfg.englishOutputMode),
         ("existing_srt_mode", Json.str cfg.existingSrtMode)]),
      ("no_speech", Json.obj
        [("detected", Json.bool false), ("file_sig", sig)])])]

/-- Outcome of one `process_one_video` call: the `Result`, the item's
file-system state after the call, whether transcription was attempted,
whether the translation collaborator ran, and whether the uuid supply
was consumed by `_ensure_media_id`. -/
structure ProcOut where
  res : Result
  st : ItemState
  transcribed : Bool
  translated : Bool
  uuidUsed : Bool

/-- `process_one_video` (with `library_root = None`, as both entry
points in this repository call it): the per-file state machine. -/
def processOneVideo (cfg : Config) (env : Env) (ie : ItemEnv)
    (newId : String) (st0 : ItemState) : ProcOut :=
  let sig := fileSig ie.sizeB ie.mtime
  let em := ensureMediaId st0.meta newId
  let m1 := setScanFields em.1 env.now
  let gm := getMediaData ie.probeRaw sig m1
  let st1 : ItemState := { st0 with meta := gm.meta }
  let uu := em.2.2
  if cfg.existingSrtMode = "skip" && noSpeechCachedHit st1.meta sig then
    { res := ⟨true, "skipped (no-speech cached)", ie.name, 0⟩,
      st := st1, transcribed := false, translated := false, uuidUsed := uu }
  else
    let st2 : ItemState :=
      if cfg.existingSrtMode = "overwrite" then
        { st1 with fallbackSrt := none,
                   meta := updateMeta st1.meta [("system", Json.obj [("no_speech", Json.null)])] }
      else st1
    if st2.finalSrt.isSome && cfg.existingSrtMode = "skip" then
      { res := ⟨true, "skipped (srt already exists)", ie.name, 0⟩,
        st := st2, transcribed := false, translated := false, uuidUsed := uu }
    else
      match ie.transcribe with
      | .error e =>
          { res := ⟨false, "audio decode failed (" ++ e ++ ")", ie.name, 0⟩,
            st := st2, transcribed := true, translated := false, uuidUsed := uu }
      | .ok (detectedLang, sourceSrt) =>
          if ! hasRealText sourceSrt then
            let patch := [("system", Json.obj [("no_speech", Json.obj
                 [("detected", Json.bool true),
                  ("whisper_model", Json.str cfg.whisperModel),
                  ("created_utc", Json.num env.now),
                  ("file_sig", sig)])])]
            let st3 := { st2 with meta := updateMeta st2.meta patch }
            { res := ⟨false, "no srt created (no speech detected)", ie.name, 0⟩,
              st := st3, transcribed := true, translated := false, uuidUsed := uu }
          else
            let subs := (env.parseCues sourceSrt).getD []
            if subs.length > MAX_SUBS then
              { res := ⟨false, "too many subtitle segments (" ++ toString subs.length
                          ++ "), saved source only", ie.name, 0⟩,
                st := { st2 with fallbackSrt := some sourceSrt },
                transcribed := true, translated := false, uuidUsed := uu }
            else
              if detectedLang = "en" then
                if cfg.englishOutputMode = "non_english_only" then
                  let st3 :=
                    if cfg.existingSrtMode = "overwrite" then
                      { st2 with finalSrt := none }
                    else st2
                  let st4 := { st3 with meta := updateMeta st3.meta (subtitleRunPatch cfg detectedLang false false env.now sig) }
                  { res := ⟨true, "skipped (english; translate-only mode)", ie.name, 0⟩,
                    st := st4, transcribed := true, translated := false, uuidUsed := uu }
                else
                  let st3 := { st2 with finalSrt := some sourceSrt }
                  let st4 := { st3 with meta := updateMeta st3.meta (subtitleRunPatch cfg detectedLang false true env.now sig) }
                  { res := ⟨true, "english srt written", ie.name, 0⟩,
                    st := st4, transcribed := true, translated := false, uuidUsed := uu }
              else
                match whisperToNllb detectedLang with
                | none =>
                    let st3 := { st2 with fallbackSrt := some sourceSrt }
                    let st4 := { st3 with meta := updateMeta st3.meta (subtitleRunPatch cfg detectedLang false false env.now sig) }
                    { res := ⟨false, "no mapping for '" ++ detectedLang
                                ++ "' (wrote source fallback)", ie.name, 0⟩,
                      st := st4, transcribed := true, translated := false, uuidUsed := uu }
                | some srcNllb =>
                    let english := env.translate srcNllb sourceSrt
                    let st3 := { st2 with finalSrt := some english, fallbackSrt := none }
                    let st4 := { st3 with meta := updateMeta st3.meta (subtitleRunPatch cfg detectedLang true true env.now sig) }
                    { res := ⟨true, "translated to english", ie.name, 0⟩,
                      st := st4, transcribed := true, translated := true, uuidUsed := uu }

/-- Substring scan: the needle is a prefix at some position of the hay. -/
def containsAux (needle : List Char) : List Char → Bool
  | [] => needle.isEmpty
  | c :: rest => needle.isPrefixOf (c :: rest) || containsAux needle rest

/-- Python `needle in hay` on strings (substring test). -/
def strContains (hay needle : String) : Bool :=
  containsAux needle.toList hay.toList

/-- `_did_work_from_result`: substring classification of a `Result`
message into work/no-work for the ETA estimator. -/
def didWorkFromResult (r : Result) : Bool :=
  let msg := r.message.toLower
  if strContains msg "skipped" then false
  else if strContains msg "no speech detected" || strContains msg "no-speech cached" then false
  else if strContains msg "translated to english" then true
  else if strContains msg "english srt written" then true
  else if strContains msg "wrote source fallback" || strContains msg "saved source only" then true
  else r.ok

/-- One tuple passed to the progress callback:
`(done_files, total_files, elapsed, done_work, total_work, did_work)`. -/
structure Sample where
  done : Int
  total : Int
  elapsed : Rat
  doneWork : Int
  totalWork : Int
  didWork : Bool
  deriving DecidableEq

/-- The fixed data a batch runs against, for items indexed by `ι`. -/
structure BatchEnv (ι : Type) where
  cfg : Config
  env : Env
  ienv : ι → ItemEnv
  uuid : Nat → String

/-- Pointwise world update at one item. -/
def updW {ι : Type} [DecidableEq ι] (w : ι → ItemState) (i : ι)
    (s : ItemState) : ι → ItemState :=
  fun j => if j = i then s else w j

/-- The threaded counters of a running batch: the world, the uuid supply
position, and how many cancellation-flag reads have happened (the
cooperative flag is an oracle indexed by read number). -/
structure ScanState (ι : Type) where
  world : ι → ItemState
  uuidCtr : Nat
  checkCtr : Nat

/-- One item of the scan phase of `run_batch`: `get_media_data`, then
`get_media_duration_seconds` (a second `get_media_data` call), the
appended duration (`dur if ok else 0.0`), then scan stamps and
`_ensure_media_id`. -/
def scanItem {ι : Type} [DecidableEq ι] (be : BatchEnv ι) (s : ScanState ι)
    (v : ι) : ScanState ι × Rat :=
  let ie := be.ienv v
  let sig := fileSig ie.sizeB ie.mtime
  let st := s.world v
  let g1 := getMediaData ie.probeRaw sig st.meta
  let g2 := getMediaData ie.probeRaw sig g1.meta
  let dur : Rat :=
    if g2.ok then
      match g2.data with
      | Json.obj d => pyToFloat (pyOr (jGet d "duration_s") (Json.num 0)) 0
      | _ => 0
    else 0
  let durEntry := if dur > 0 then dur else 0
  let m3 := setScanFields g2.meta be.env.now
  let em := ensureMediaId m3 (be.uuid s.uuidCtr)
  let st' := { st with meta := em.1 }
  ({ world := updW s.world v st',
     uuidCtr := s.uuidCtr + (if em.2.2 then 1 else 0),
     checkCtr := s.checkCtr }, durEntry)

/-- The scan loop of `run_batch` (duration + data caching scan), with
its per-item cancellation check; the Bool reports an early cancel. -/
def scanLoop {ι : Type} [DecidableEq ι] (be : BatchEnv ι)
    (cancel : Nat → Bool) : List ι → ScanState ι → ScanState ι × List Rat × Bool
  | [], s => (s, [], false)
  | v :: vs, s =>
      if cancel s.checkCtr then
        ({ s with checkCtr := s.checkCtr + 1 }, [], true)
      else
        let s1 : ScanState ι := { s with checkCtr := s.checkCtr + 1 }
        let (s2, dur) := scanItem be s1 v
        let (s3, durs, c) := scanLoop be cancel vs s2
        (s3, dur :: durs, c)

/-- The mutable state of the main loop of `run_batch`. -/
structure RunState (ι : Type) where
  world : ι → ItemState
  uuidCtr : Nat
  checkCtr : Nat
  results : List Result
  samples : List Sample
  completed : Nat
  doneWork : Rat

/-- The main item loop of `run_batch`: cancellation check, pre-item
progress sample, scan stamps, `process_one_video`, accumulation, post
progress sample, trailing cancellation check. -/
def processLoop {ι : Type} [DecidableEq ι] (be : BatchEnv ι)
    (cancel : Nat → Bool) (total : Nat) (totalWork : Rat) :
    List (ι × Rat) → RunState ι → RunState ι
  | [], s => s
  | (v, dur) :: rest, s =>
      if cancel s.checkCtr then { s with checkCtr := s.checkCtr + 1 }
      else
        let s1 : RunState ι := { s with checkCtr := s.checkCtr + 1 }
        let pre : Sample :=
          ⟨(s1.completed : Int), (total : Int), 0, pyInt s1.doneWork,
           pyInt totalWork, false⟩
        let s2 : RunState ι := { s1 with samples := s1.samples ++ [pre] }
        let ie := be.ienv v
        let st := s2.world v
        let stm := { st with meta := setScanFields st.meta be.env.now }
        let po := processOneVideo be.cfg be.env ie (be.uuid s2.uuidCtr) stm
        let s3 : RunState ι :=
          { s2 with world := updW s2.world v po.st,
                    uuidCtr := s2.uuidCtr + (if po.uuidUsed then 1 else 0),
                    results := s2.results ++ [po.res],
                    completed := s2.completed + 1,
                    doneWork := s2.doneWork + dur }
        let post : Sample :=
          ⟨(s3.completed : Int), (total : Int), 0, pyInt s3.doneWork,
           pyInt totalWork, didWorkFromResult po.res⟩
        let s4 : RunState ι := { s3 with samples := s3.samples ++ [post] }
        if cancel s4.checkCtr then { s4 with checkCtr := s4.checkCtr + 1 }
        else processLoop be cancel total totalWork rest
               { s4 with checkCtr := s4.checkCtr + 1 }

/-- What a `run_batch` call returns and leaves behind. -/
structure BatchOut (ι : Type) where
  results : List Result
  samples : List Sample
  world : ι → ItemState
  uuidCtr : Nat
  checkCtr : Nat

/-- `run_batch`: prefilter, scan phase (early return of the empty result
list when cancelled there), then the main loop over the filtered items
zipped with their scanned durations. -/
def runBatch {ι : Type} [DecidableEq ι] (be : BatchEnv ι)
    (cancel : Nat → Bool) (videos : List ι) (w : ι → ItemState)
    (uuidCtr checkCtr : Nat) : BatchOut ι :=
  let vids := filterVideosForRun be.cfg.existingSrtMode
    (fun v => (w v).finalSrt.isSome) videos
  let (s1, durs, cancelled) := scanLoop be cancel vids ⟨w, uuidCtr, checkCtr⟩
  if cancelled then
    { results := [], samples := [], world := s1.world,
      uuidCtr := s1.uuidCtr, checkCtr := s1.checkCtr }
  else
    let totalWork := durs.sum
    let fin := processLoop be cancel vids.length totalWork (vids.zip durs)
      ⟨s1.world, s1.uuidCtr, s1.checkCtr, [], [], 0, 0⟩
    { results := fin.results, samples := fin.samples, world := fin.world,
      uuidCtr := fin.uuidCtr, checkCtr := fin.checkCtr }

/-- The chunk loop of `service.py` `main`: per chunk, `run_batch` with a
progress wrapper mapping the chunk-local done counter to
`global_done + done` and the chunk-local total to the global total;
`global_done += len(part)` after each chunk. -/
def serviceChunkLoop {ι : Type} [DecidableEq ι] (be : BatchEnv ι)
    (totalAll : Nat) : List (List ι) → Nat → (ι → ItemState) → Nat → Nat →
    List Result × List Sample × (ι → ItemState) × Nat × Nat
  | [], _, w, uc, cc => ([], [], w, uc, cc)
  | part :: parts, gdone, w, uc, cc =>
      let out := runBatch be (fun _ => false) part w uc cc
      let mapped := out.samples.map (fun smp =>
        { smp with done := (gdone : Int) + smp.done, total := (totalAll : Int) })
      let (rs, ss, w', uc', cc') :=
        serviceChunkLoop be totalAll parts (gdone + part.length) out.world
          out.uuidCtr out.checkCtr
      (out.results ++ rs, mapped ++ ss, w', uc', cc')

/-- `service.py` `main` after argument parsing (no cancellation source
exists there): prefilter, empty-exit, then either the chunked path
(when the filtered count exceeds the threshold) or one plain
`run_batch`. -/
def serviceRun {ι : Type} [DecidableEq ι] (be : BatchEnv ι)
    (chunkSize chunkThresh : Int) (videos : List ι) (w0 : ι → ItemState) :
    List Result × List Sample :=
  let videos2 := filterVideosForRun be.cfg.existingSrtMode
    (fun v => (w0 v).finalSrt.isSome) videos
  if videos2.isEmpty then ([], [])
  else if (videos2.length : Int) > chunkThresh then
    let (rs, ss, _, _, _) :=
      serviceChunkLoop be videos2.length (chunked videos2 chunkSize) 0 w0 0 0
    (rs, ss)
  else
    let out := runBatch be (fun _ => false) videos2 w0 0 0
    (out.results, out.samples)

/-- Two-digit zero padding (`{n:02d}`). -/
def pad2 (n : Nat) : String :=
  if n < 10 then "0" ++ toString n else toString n

/-- `fmt_hms`: `h:mm:ss` when hours are nonzero, else `m:ss`. -/
def fmtHms (seconds : Int) : String :=
  let s0 := (max 0 seconds).toNat
  let h := s0 / 3600
  let m := (s0 % 3600) / 60
  let s := s0 % 60
  if h ≠ 0 then toString h ++ ":" ++ pad2 m ++ ":" ++ pad2 s
  else toString m ++ ":" ++ pad2 s

/-- The ETA-relevant widget state of `ProgressFrame`
(`src/ui/progress_frame.py`): the learning checkpoints, the smoothed
work-per-second estimate, and the displayed variables `set_progress`
writes. -/
structure EstState where
  lastEtaLearnDone : Int
  lastCpWork : Int
  lastCpElapsed : Rat
  wpsEwma : Option Rat
  countVar : String
  elapsedVar : String
  etaVar : String
  durationVar : String
  progressValue : Int
  progressMax : Int

/-- The state `ProgressFrame.reset` establishes. -/
def estReset : EstState :=
  { lastEtaLearnDone := -1, lastCpWork := 0, lastCpElapsed := 0,
    wpsEwma := none, countVar := "",
    elapsedVar := "Elapsed: 0:00", etaVar := "ETA: estimating…",
    durationVar := "Duration: 0:00 done / 0:00 left (of 0:00)",
    progressValue := 0, progressMax := 1 }

/-- `ProgressFrame.set_progress`: bar, counters and duration display on
every sample; the rate estimate is read and learned only further down,
behind the `did_work` gates. -/
def setProgress (st : EstState) (done total : Int) (elapsed : Rat)
    (doneWork totalWork : Int) (didWork : Bool) : EstState :=
  let st := { st with progressMax := max total 1,
                      progressValue := min (max done 0) (max total 1) }
  let st := { st with countVar := "Files: " ++ toString done ++ "/" ++ toString total }
  let st := { st with elapsedVar := "Elapsed: " ++ fmtHms (pyInt elapsed) }
  let durText :=
    if totalWork > 0 then
      "Duration: " ++ fmtHms doneWork ++ " done / "
        ++ fmtHms (max 0 (totalWork - doneWork)) ++ " left (of "
        ++ fmtHms totalWork ++ ")"
    else "Duration: " ++ fmtHms doneWork ++ " done"
  let st := { st with durationVar := durText }
  let st :=
    match st.wpsEwma with
    | none =>
        if done ≥ 0 then { st with etaVar := "ETA: estimating…" }
        else if ! didWork then { st with etaVar := "ETA: waiting for real processing…" }
        else st
    | some _ => st
  if ! didWork then st
  else if done = st.lastEtaLearnDone then st
  else
    let st := { st with lastEtaLearnDone := done }
    if doneWork ≤ 0 ∨ totalWork ≤ 0 then { st with etaVar := "ETA: estimating…" }
    else
      let deltaWork := doneWork - st.lastCpWork
      let deltaT := elapsed - st.lastCpElapsed
      let st :=
        if deltaWork > 0 ∧ deltaT > 1/2 then
          let inst : Rat := (deltaWork : Rat) / deltaT
          let newE : Rat :=
            match st.wpsEwma with
            | none => inst
            | some prev => (35/100 : Rat) * inst + (1 - 35/100) * prev
          { st with wpsEwma := some newE, lastCpWork := doneWork,
                    lastCpElapsed := elapsed }
        else st
      match st.wpsEwma with
      | none => { st with etaVar := "ETA: estimating…" }
      | some e =>
          if e ≤ 0 then { st with etaVar := "ETA: estimating…" }
          else
            let remaining : Int := max 0 (totalWork - doneWork)
            let etaS := pyInt ((remaining : Rat) / e)
            { st with etaVar := "ETA: " ++ fmtHms etaS }

/-- Feeding the estimator a stream of samples. -/
def feedSamples (st : EstState) (l : List Sample) : EstState :=
  l.foldl (fun s smp =>
    setProgress s smp.done smp.total smp.elapsed smp.doneWork smp.totalWork smp.didWork) st

/-! ### Lemmas about the metadata-cache merge -/

theorem lookupKey_setKey (d : List (String × Json)) (k : String) (v : Json)
    (k' : String) :
    lookupKey (setKey d k v) k' = if k = k' then some v else lookupKey d k' := by
  induction d with
  | nil => simp [setKey, lookupKey]
  | cons kv rest ih =>
      by_cases h : kv.1 = k
      · simp only [setKey, h, if_pos rfl, lookupKey]
        by_cases h' : k = k'
        · simp [h']
        · simp [h', lookupKey, h]
      · simp only [setKey, h, if_neg h, lookupKey]
        by_cases h2 : kv.1 = k'
        · have : ¬ k = k' := fun e => h (e ▸ h2)
          simp [h2, this]
        · simp [h2, ih]

theorem lookupKey_eq_none_of_not_mem (d : List (String × Json)) (k : String)
    (h : k ∉ d.map Prod.fst) : lookupKey d k = none := by
  induction d with
  | nil => rfl
  | cons kv rest ih =>
      simp only [List.map_cons, List.mem_cons] at h
      push_neg at h
      simp only [lookupKey]
      rw [if_neg (fun e => h.1 e.symm), ih h.2]

theorem lookupKey_deepMergeStep (dst : List (String × Json)) (k1 : String)
    (v1 : Json) (k : String) :
    lookupKey (deepMergeStep dst k1 v1) k =
      if k1 = k then
        (match v1, lookupKey dst k1 with
         | Json.obj s, some (Json.obj d) => some (Json.obj (deepMerge d s))
         | v, _ => some v)
      else lookupKey dst k := by
  cases v1 with
  | obj s =>
      simp only [deepMergeStep]
      cases hd : lookupKey dst k1 with
      | none => simp [lookupKey_setKey, hd]
      | some w =>
          cases w <;> simp [lookupKey_setKey, hd]
  | null => simp [deepMergeStep, lookupKey_setKey]
  | bool b => simp [deepMergeStep, lookupKey_setKey]
  | num q => simp [deepMergeStep, lookupKey_setKey]
  | str s => simp [deepMergeStep, lookupKey_setKey]
  | arr l => simp [deepMergeStep, lookupKey_setKey]

theorem lookupKey_deepMerge (src : List (String × Json)) :
    ∀ (dst : List (String × Json)) (k : String),
    (src.map Prod.fst).Nodup →
    lookupKey (deepMerge dst src) k =
      match lookupKey src k, lookupKey dst k with
      | none, dv => dv
      | some (Json.obj s), some (Json.obj d) => some (Json.obj (deepMerge d s))
      | some v, _ => some v := by
  induction src with
  | nil => intro dst k _; simp [deepMerge, lookupKey]
  | cons kv rest ih =>
      intro dst k hnd
      obtain ⟨k1, v1⟩ := kv
      simp only [List.map_cons, List.nodup_cons] at hnd
      have hrest := hnd.2
      have hk1 : k1 ∉ rest.map Prod.fst := hnd.1
      show lookupKey (deepMerge (deepMergeStep dst k1 v1) rest) k = _
      rw [ih (deepMergeStep dst k1 v1) k hrest]
      by_cases hkk : k1 = k
      · subst hkk
        rw [lookupKey_eq_none_of_not_mem rest k1 hk1]
        rw [lookupKey_deepMergeStep, if_pos rfl]
        simp only [lookupKey, if_pos rfl]
        cases v1 with
        | obj s => cases hd : lookupKey dst k1 with
            | none => simp
            | some w => cases w <;> simp
        | null => simp
        | bool b => simp
        | num q => simp
        | str s => simp
        | arr l => simp
      · have hstep : lookupKey (deepMergeStep dst k1 v1) k = lookupKey dst k := by
          rw [lookupKey_deepMergeStep, if_neg hkk]
        rw [hstep]
        simp only [lookupKey]
        rw [if_neg hkk]

/-- C6: `_deep_merge` merges a map patch value into an existing map at
the same key key-by-key recursively; any non-map patch value (the
explicit `null` clear sentinel included) replaces the destination value
wholesale, as does a map patched over a non-map; and every destination
key the patch does not mention keeps its value (siblings undisturbed).
The hypothesis states that the patch has unique keys, as every Python
dict does. -/
theorem claim_C6 (dst src : List (String × Json)) (k : String)
    (hsrc : (src.map Prod.fst).Nodup) :
    lookupKey (deepMerge dst src) k =
      match lookupKey src k, lookupKey dst k with
      | none, dv => dv
      | some (Json.obj s), some (Json.obj d) => some (Json.obj (deepMerge d s))
      | some v, _ => some v :=
  lookupKey_deepMerge src dst k hsrc

/-- Witness for C6 at a concrete document and patch: the sub-map merges
key-by-key, the `null` sentinel replaces, and the untouched sibling
survives. -/
theorem claim_C6_witness :
    lookupKey (deepMerge
        [("a", Json.obj [("x", Json.num 1), ("y", Json.num 2)]),
         ("b", Json.num 3), ("c", Json.obj [("z", Json.num 4)])]
        [("a", Json.obj [("y", Json.num 9)]), ("c", Json.null)]) "a"
      = some (Json.obj [("x", Json.num 1), ("y", Json.num 9)])
    ∧ lookupKey (deepMerge
        [("a", Json.obj [("x", Json.num 1), ("y", Json.num 2)]),
         ("b", Json.num 3), ("c", Json.obj [("z", Json.num 4)])]
        [("a", Json.obj [("y", Json.num 9)]), ("c", Json.null)]) "b"
      = some (Json.num 3)
    ∧ lookupKey (deepMerge
        [("a", Json.obj [("x", Json.num 1), ("y", Json.num 2)]),
         ("b", Json.num 3), ("c", Json.obj [("z", Json.num 4)])]
        [("a", Json.obj [("y", Json.num 9)]), ("c", Json.null)]) "c"
      = some Json.null := by
  refine ⟨?_, ?_, ?_⟩
  · rw [claim_C6 _ _ _ (by simp)]
    with_unfolding_all rfl
  · rw [claim_C6 _ _ _ (by simp)]
    with_unfolding_all rfl
  · rw [claim_C6 _ _ _ (by simp)]
    with_unfolding_all rfl

/-- C8: reading the sidecar metadata returns the empty record when the
file is missing, and the empty record when its (non-empty) contents do
not parse; the read itself is a total function, so corruption never
raises to the caller. -/
theorem claim_C8 (parse : String → Option Json) (text : String)
    (h1 : text ≠ "") (h2 : parse text = none) :
    readJsonFile parse none = Json.obj []
    ∧ readJsonFile parse (some text) = Json.obj [] := by
  constructor
  · rfl
  · simp only [readJsonFile, if_neg h1, h2]

/-- Witness for C8: a parser that always fails still yields the empty
record on concrete contents. -/
theorem claim_C8_witness :
    readJsonFile (fun _ => none) none = Json.obj []
    ∧ readJsonFile (fun _ => none) (some "corrupt ~~") = Json.obj [] :=
  claim_C8 (fun _ => none) "corrupt ~~" (by decide) rfl

/-- A one-binding patch takes a single `_deep_merge` step. -/
theorem deepMerge_single (dst : List (String × Json)) (k : String) (v : Json) :
    deepMerge dst [(k, v)] = deepMergeStep dst k v := rfl

/-- The generated-id patch of `_ensure_media_id` always leaves a
readable `system.media_id` equal to the fresh id. -/
theorem mediaIdOf_updateMeta_mediaId (doc : Json) (u : String) :
    mediaIdOf (updateMeta doc [("system", Json.obj [("media_id", Json.str u)])])
      = some u := by
  have core : ∀ d : List (String × Json),
      mediaIdOf (Json.obj (deepMerge d [("system", Json.obj [("media_id", Json.str u)])]))
        = some u := by
    intro d
    rw [deepMerge_single]
    simp only [deepMergeStep]
    cases hd : lookupKey d "system" with
    | none => simp [mediaIdOf, lookupKey_setKey, deepMerge_single, lookupKey]
    | some w =>
        cases w with
        | obj sd =>
            simp only [mediaIdOf, lookupKey_setKey, if_pos rfl]
            rw [deepMerge_single]
            simp [deepMergeStep, lookupKey_setKey]
        | null => simp [mediaIdOf, lookupKey_setKey, lookupKey]
        | bool b => simp [mediaIdOf, lookupKey_setKey, lookupKey]
        | num q => simp [mediaIdOf, lookupKey_setKey, lookupKey]
        | str s => simp [mediaIdOf, lookupKey_setKey, lookupKey]
        | arr l => simp [mediaIdOf, lookupKey_setKey, lookupKey]
  cases doc with
  | obj d => exact core d
  | null => exact core []
  | bool b => exact core []
  | num q => exact core []
  | str s => exact core []
  | arr l => exact core []

/-- C9: the media id is generated at most once and never regenerated.
Whenever the record already stores a non-blank string id, every
`_ensure_media_id` call returns exactly that id, leaves the record
untouched and consumes no fresh uuid; and after any call made with a
non-blank fresh id `u` (every uuid4 string is), all later calls return
the persisted id unchanged. -/
theorem claim_C9 (doc : Json) (u u2 : String) (hu : u.trim ≠ "") :
    (∀ m, mediaIdOf doc = some m → m.trim ≠ "" →
        ensureMediaId doc u2 = (doc, m, false))
    ∧ ensureMediaId (ensureMediaId doc u).1 u2
        = ((ensureMediaId doc u).1, (ensureMediaId doc u).2.1, false) := by
  constructor
  · intro m hm hmt
    simp [ensureMediaId, hm, hmt]
  · cases hm : mediaIdOf doc with
    | some m =>
        by_cases hmt : m.trim = ""
        · simp only [ensureMediaId, hm, hmt, ite_not, if_pos rfl]
          simp [mediaIdOf_updateMeta_mediaId, hu]
        · simp [ensureMediaId, hm, hmt]
    | none =>
        simp only [ensureMediaId, hm]
        simp [mediaIdOf_updateMeta_mediaId, hu]

/-- Witness for C9: a record with a stored id keeps it, and a fresh
record, once written with `"u-1"`, returns `"u-1"` from then on. -/
theorem claim_C9_witness :
    ensureMediaId (Json.obj [("system", Json.obj [("media_id", Json.str "m-0")])]) "u-2"
      = (Json.obj [("system", Json.obj [("media_id", Json.str "m-0")])], "m-0", false)
    ∧ ensureMediaId (ensureMediaId (Json.obj []) "u-1").1 "u-2"
      = ((ensureMediaId (Json.obj []) "u-1").1, (ensureMediaId (Json.obj []) "u-1").2.1, false) := by
  constructor
  · exact (claim_C9 (Json.obj [("system", Json.obj [("media_id", Json.str "m-0")])])
      "u-1" "u-2" (by with_unfolding_all exact of_decide_eq_true rfl)).1 "m-0"
      (by with_unfolding_all rfl) (by with_unfolding_all exact of_decide_eq_true rfl)
  · exact (claim_C9 (Json.obj []) "u-1" "u-2"
      (by with_unfolding_all exact of_decide_eq_true rfl)).2

/-- `chunkGo` splits into non-empty slices of length at most `s + 1`
whose concatenation is the input. -/
theorem chunkGo_spec (s : Nat) (l : List α) :
    (chunkGo s l).flatten = l
    ∧ ∀ c ∈ chunkGo s l, c ≠ [] ∧ c.length ≤ s + 1 := by
  generalize hn : l.length = n
  induction n using Nat.strong_induction_on generalizing l with
  | _ n ih =>
      cases l with
      | nil => simp [chunkGo]
      | cons x xs =>
          have hlt : (xs.drop s).length < n := by
            subst hn; simp [List.length_drop]; omega
          have := ih _ hlt (xs.drop s) rfl
          constructor
          · simp only [chunkGo, List.flatten_cons, this.1]
            rw [List.take_succ_cons, List.cons_append, List.take_append_drop]
          · intro c hc
            simp only [chunkGo, List.mem_cons] at hc
            rcases hc with hc | hc
            · subst hc
              exact ⟨by simp, List.length_take_le (s + 1) (x :: xs)⟩
            · exact this.2 c hc

/-- C10: for every item list and every integer chunk size (zero and
negative included), the chunks of `chunked` are all non-empty, each has
length at most `max 1 size`, and their concatenation in order is the
input list exactly. -/
theorem claim_C10 (items : List α) (size : Int) :
    (chunked items size).flatten = items
    ∧ ∀ c ∈ chunked items size, c ≠ [] ∧ c.length ≤ (max 1 size).toNat := by
  have h1 : (1 : Int) ≤ max 1 size := le_max_left 1 size
  have htn : 1 ≤ (max 1 size).toNat := by omega
  have hs : (max 1 size).toNat - 1 + 1 = (max 1 size).toNat := by omega
  have := chunkGo_spec ((max 1 size).toNat - 1) items
  refine ⟨this.1, fun c hc => ⟨(this.2 c hc).1, ?_⟩⟩
  have := (this.2 c hc).2
  omega

/-- Witness for C10: concrete chunks of a 5-element list at size 2, and
the membership hypothesis discharged at the last (short) chunk. -/
theorem claim_C10_witness :
    (chunked [1, 2, 3, 4, 5] (2 : Int)).flatten = [1, 2, 3, 4, 5]
    ∧ ([5] ≠ ([] : List Nat) ∧ [5].length ≤ (max 1 (2 : Int)).toNat) := by
  refine ⟨(claim_C10 [1, 2, 3, 4, 5] 2).1,
    (claim_C10 [1, 2, 3, 4, 5] 2).2 [5] ?_⟩
  simp [chunked, chunkGo]

/-! ### The ETA estimator's did_work gate (C3) -/

/-- A `did_work=false` sample never touches the rate-learning state:
with no estimate yet, the EWMA stays unlearned, the checkpoints stay
put, and the ETA display stays in a not-yet-available form. -/
theorem setProgress_no_work (st : EstState) (hewma : st.wpsEwma = none)
    (d t : Int) (e : Rat) (dw tw : Int) :
    (setProgress st d t e dw tw false).wpsEwma = none
    ∧ (setProgress st d t e dw tw false).lastEtaLearnDone = st.lastEtaLearnDone
    ∧ (setProgress st d t e dw tw false).lastCpWork = st.lastCpWork
    ∧ (setProgress st d t e dw tw false).lastCpElapsed = st.lastCpElapsed
    ∧ ((setProgress st d t e dw tw false).etaVar = "ETA: estimating…"
       ∨ (setProgress st d t e dw tw false).etaVar = "ETA: waiting for real processing…") := by
  simp only [setProgress, hewma]
  by_cases hd : d ≥ 0 <;> simp [hd]

/-- C3: feeding the estimator any all-skip (`did_work=false`) sample
sequence from reset leaves the rate estimate unlearned — the EWMA is
still `none`, the learning checkpoints still hold their reset values,
and the ETA is still displayed as not yet available — so only a later
`did_work=true` sample can be the first to change the rate estimate. -/
theorem claim_C3 (l : List Sample) (h : ∀ s ∈ l, s.didWork = false) :
    (feedSamples estReset l).wpsEwma = none
    ∧ (feedSamples estReset l).lastEtaLearnDone = -1
    ∧ (feedSamples estReset l).lastCpWork = 0
    ∧ (feedSamples estReset l).lastCpElapsed = 0
    ∧ ((feedSamples estReset l).etaVar = "ETA: estimating…"
       ∨ (feedSamples estReset l).etaVar = "ETA: waiting for real processing…") := by
  suffices H : ∀ st : EstState, st.wpsEwma = none →
      (feedSamples st l).wpsEwma = none
      ∧ (feedSamples st l).lastEtaLearnDone = st.lastEtaLearnDone
      ∧ (feedSamples st l).lastCpWork = st.lastCpWork
      ∧ (feedSamples st l).lastCpElapsed = st.lastCpElapsed
      ∧ ((feedSamples st l).etaVar = "ETA: estimating…"
         ∨ (feedSamples st l).etaVar = "ETA: waiting for real processing…"
         ∨ (feedSamples st l).etaVar = st.etaVar) by
    have := H estReset rfl
    refine ⟨this.1, this.2.1, this.2.2.1, this.2.2.2.1, ?_⟩
    rcases this.2.2.2.2 with h1 | h1 | h1
    · exact Or.inl h1
    · exact Or.inr h1
    · exact Or.inl (h1.trans rfl)
  induction l with
  | nil => intro st hst; simp [feedSamples, hst]
  | cons smp rest ih =>
      intro st hst
      have hsmp : smp.didWork = false := h smp (List.mem_cons_self _ _)
      have hrest : ∀ s ∈ rest, s.didWork = false :=
        fun s hs => h s (List.mem_cons_of_mem _ hs)
      have step := setProgress_no_work st hst smp.done smp.total smp.elapsed
        smp.doneWork smp.totalWork
      have hfeed : feedSamples st (smp :: rest)
          = feedSamples (setProgress st smp.done smp.total smp.elapsed
              smp.doneWork smp.totalWork smp.didWork) rest := rfl
      rw [hfeed, hsmp]
      have ihres := (fun st' hst' => ih hrest st' hst')
        (setProgress st smp.done smp.total smp.elapsed smp.doneWork smp.totalWork false)
        step.1
      refine ⟨ihres.1, ?_, ?_, ?_, ?_⟩
      · rw [ihres.2.1, step.2.1]
      · rw [ihres.2.2.1, step.2.2.1]
      · rw [ihres.2.2.2.1, step.2.2.2.1]
      · rcases ihres.2.2.2.2 with h1 | h1 | h1
        · exact Or.inl h1
        · exact Or.inr (Or.inl h1)
        · rw [h1]
          rcases step.2.2.2.2 with h2 | h2
          · exact Or.inl h2
          · exact Or.inr (Or.inl h2)

/-- Witness for C3: two concrete skip samples leave the estimator
unlearned and the ETA unavailable. -/
theorem claim_C3_witness :
    (feedSamples estReset
      [⟨0, 10, 0, 0, 100, false⟩, ⟨1, 10, 5, 10, 100, false⟩]).wpsEwma = none
    ∧ (feedSamples estReset
      [⟨0, 10, 0, 0, 100, false⟩, ⟨1, 10, 5, 10, 100, false⟩]).lastEtaLearnDone = -1
    ∧ (feedSamples estReset
      [⟨0, 10, 0, 0, 100, false⟩, ⟨1, 10, 5, 10, 100, false⟩]).lastCpWork = 0
    ∧ (feedSamples estReset
      [⟨0, 10, 0, 0, 100, false⟩, ⟨1, 10, 5, 10, 100, false⟩]).lastCpElapsed = 0
    ∧ ((feedSamples estReset
      [⟨0, 10, 0, 0, 100, false⟩, ⟨1, 10, 5, 10, 100, false⟩]).etaVar = "ETA: estimating…"
       ∨ (feedSamples estReset
      [⟨0, 10, 0, 0, 100, false⟩, ⟨1, 10, 5, 10, 100, false⟩]).etaVar
          = "ETA: waiting for real processing…") :=
  claim_C3 [⟨0, 10, 0, 0, 100, false⟩, ⟨1, 10, 5, 10, 100, false⟩]
    (by intro s hs; simp only [List.mem_cons, List.not_mem_nil, or_false] at hs
        rcases hs with h | h <;> subst h <;> rfl)

/-! ### Guard preservation through the bookkeeping writes -/

/-- A merge under `system` at a key other than `no_speech` leaves the
no-speech cached-skip guard unchanged. -/
theorem noSpeechCachedHit_updateMeta_system (doc : Json) (k1 : String)
    (v1 : Json) (sig : Json) (hk : k1 ≠ "no_speech") :
    noSpeechCachedHit (updateMeta doc [("system", Json.obj [(k1, v1)])]) sig
      = noSpeechCachedHit doc sig := by
  have core : ∀ d : List (String × Json),
      noSpeechCachedHit (Json.obj (deepMerge d [("system", Json.obj [(k1, v1)])])) sig
        = noSpeechCachedHit (Json.obj d) sig := by
    intro d
    have hnone : lookupKey [(k1, v1)] "no_speech" = none :=
      lookupKey_eq_none_of_not_mem [(k1, v1)] "no_speech" (by simpa using Ne.symm hk)
    rw [deepMerge_single]
    simp only [deepMergeStep]
    cases hd : lookupKey d "system" with
    | none =>
        simp [noSpeechCachedHit, lookupKey_setKey, hd, hnone]
    | some w =>
        cases w with
        | obj sd =>
            simp only [noSpeechCachedHit, lookupKey_setKey, if_pos rfl, if_true, hd]
            rw [deepMerge_single, lookupKey_deepMergeStep, if_neg hk]
        | null => simp [noSpeechCachedHit, lookupKey_setKey, hd, hnone]
        | bool b => simp [noSpeechCachedHit, lookupKey_setKey, hd, hnone]
        | num q => simp [noSpeechCachedHit, lookupKey_setKey, hd, hnone]
        | str s => simp [noSpeechCachedHit, lookupKey_setKey, hd, hnone]
        | arr l => simp [noSpeechCachedHit, lookupKey_setKey, hd, hnone]
  cases doc with
  | obj d => exact core d
  | null => exact (core []).trans (by simp [noSpeechCachedHit, lookupKey])
  | bool b => exact (core []).trans (by simp [noSpeechCachedHit, lookupKey])
  | num q => exact (core []).trans (by simp [noSpeechCachedHit, lookupKey])
  | str s => exact (core []).trans (by simp [noSpeechCachedHit, lookupKey])
  | arr l => exact (core []).trans (by simp [noSpeechCachedHit, lookupKey])

/-- A merge at a top-level key other than `system` leaves the no-speech
cached-skip guard unchanged. -/
theorem noSpeechCachedHit_updateMeta_other (doc : Json) (k0 : String)
    (v0 : Json) (sig : Json) (hk : k0 ≠ "system") :
    noSpeechCachedHit (updateMeta doc [(k0, v0)]) sig
      = noSpeechCachedHit doc sig := by
  have core : ∀ d : List (String × Json),
      noSpeechCachedHit (Json.obj (deepMerge d [(k0, v0)])) sig
        = noSpeechCachedHit (Json.obj d) sig := by
    intro d
    rw [deepMerge_single]
    have hsys : lookupKey (deepMergeStep d k0 v0) "system" = lookupKey d "system" := by
      rw [lookupKey_deepMergeStep, if_neg hk]
    simp only [noSpeechCachedHit, hsys]
  cases doc with
  | obj d => exact core d
  | null => exact (core []).trans (by simp [noSpeechCachedHit, lookupKey])
  | bool b => exact (core []).trans (by simp [noSpeechCachedHit, lookupKey])
  | num q => exact (core []).trans (by simp [noSpeechCachedHit, lookupKey])
  | str s => exact (core []).trans (by simp [noSpeechCachedHit, lookupKey])
  | arr l => exact (core []).trans (by simp [noSpeechCachedHit, lookupKey])

/-- `_ensure_media_id` never changes the no-speech guard. -/
theorem noSpeechCachedHit_ensureMediaId (doc : Json) (u : String) (sig : Json) :
    noSpeechCachedHit (ensureMediaId doc u).1 sig = noSpeechCachedHit doc sig := by
  simp only [ensureMediaId]
  cases hm : mediaIdOf doc with
  | some m =>
      by_cases hmt : m.trim = ""
      · simp only [hmt, ite_not, if_pos rfl]
        exact noSpeechCachedHit_updateMeta_system doc "media_id" (Json.str u) sig (by decide)
      · simp [hmt]
  | none =>
      exact noSpeechCachedHit_updateMeta_system doc "media_id" (Json.str u) sig (by decide)

/-- `_set_scan_fields` never changes the no-speech guard. -/
theorem noSpeechCachedHit_setScanFields (doc : Json) (now : Rat) (sig : Json) :
    noSpeechCachedHit (setScanFields doc now) sig = noSpeechCachedHit doc sig := by
  simp only [setScanFields]
  exact noSpeechCachedHit_updateMeta_system doc "scan" _ sig (by decide)

/-- `get_media_data` writes only the top-level `data` sub-tree, so it
never changes the no-speech guard. -/
theorem noSpeechCachedHit_getMediaData (p : Option (List (String × Json)))
    (sig0 : Json) (doc : Json) (sig : Json) :
    noSpeechCachedHit (getMediaData p sig0 doc).meta sig = noSpeechCachedHit doc sig := by
  have hprobe : ∀ m, noSpeechCachedHit (getMediaDataProbe p sig0 m).meta sig
      = noSpeechCachedHit m sig := by
    intro m
    cases p with
    | none => rfl
    | some raw =>
        by_cases hr : raw.isEmpty
        · simp [getMediaDataProbe, hr]
        · simp only [getMediaDataProbe, if_neg hr]
          exact noSpeechCachedHit_updateMeta_other m "data" _ sig (by decide)
  cases doc with
  | obj d =>
      cases hd : lookupKey d "data" with
      | none => simp only [getMediaData, hd]; exact hprobe _
      | some w =>
          cases w with
          | obj dd =>
              by_cases he : Json.eqb (jGet dd "file_sig") sig0
              · simp [getMediaData, hd, he]
              · simp only [getMediaData, hd, if_neg he]
                exact hprobe _
          | null => simp only [getMediaData, hd]; exact hprobe _
          | bool b => simp only [getMediaData, hd]; exact hprobe _
          | num q => simp only [getMediaData, hd]; exact hprobe _
          | str s => simp only [getMediaData, hd]; exact hprobe _
          | arr l => simp only [getMediaData, hd]; exact hprobe _
  | null => exact hprobe _
  | bool b => exact hprobe _
  | num q => exact hprobe _
  | str s => exact hprobe _
  | arr l => exact hprobe _

/-- The `Result` of `process_one_video` as a function of the two
state-dependent guards (cached no-speech hit, existing final output) and
the environment: every other input of the ladder is environmental, so
the result factors through these two booleans. -/
def procResult (cfg : Config) (env : Env) (ie : ItemEnv)
    (cachedHit hasFinal : Bool) : Result :=
  if cfg.existingSrtMode = "skip" && cachedHit then
    ⟨true, "skipped (no-speech cached)", ie.name, 0⟩
  else if hasFinal && cfg.existingSrtMode = "skip" then
    ⟨true, "skipped (srt already exists)", ie.name, 0⟩
  else
    match ie.transcribe with
    | .error e => ⟨false, "audio decode failed (" ++ e ++ ")", ie.name, 0⟩
    | .ok (detectedLang, sourceSrt) =>
        if ! hasRealText sourceSrt then
          ⟨false, "no srt created (no speech detected)", ie.name, 0⟩
        else if ((env.parseCues sourceSrt).getD []).length > MAX_SUBS then
          ⟨false, "too many subtitle segments ("
              ++ toString ((env.parseCues sourceSrt).getD []).length
              ++ "), saved source only", ie.name, 0⟩
        else if detectedLang = "en" then
          if cfg.englishOutputMode = "non_english_only" then
            ⟨true, "skipped (english; translate-only mode)", ie.name, 0⟩
          else ⟨true, "english srt written", ie.name, 0⟩
        else
          match whisperToNllb detectedLang with
          | none => ⟨false, "no mapping for '" ++ detectedLang
                        ++ "' (wrote source fallback)", ie.name, 0⟩
          | some _ => ⟨true, "translated to english", ie.name, 0⟩

/-- The no-speech guard read inside `process_one_video` (after the
media-id, scan-stamp and probe-cache writes) equals the guard on the
incoming state. -/
theorem noSpeechCachedHit_procPrefix (env : Env) (ie : ItemEnv) (u : String)
    (st : ItemState) (sig : Json) :
    noSpeechCachedHit (getMediaData ie.probeRaw (fileSig ie.sizeB ie.mtime)
        (setScanFields (ensureMediaId st.meta u).1 env.now)).meta sig
      = noSpeechCachedHit st.meta sig := by
  rw [noSpeechCachedHit_getMediaData, noSpeechCachedHit_setScanFields,
    noSpeechCachedHit_ensureMediaId]

/-- `process_one_video` returns exactly the `procResult` of its guards. -/
theorem processOneVideo_res (cfg : Config) (env : Env) (ie : ItemEnv)
    (u : String) (st : ItemState) :
    (processOneVideo cfg env ie u st).res
      = procResult cfg env ie
          (noSpeechCachedHit st.meta (fileSig ie.sizeB ie.mtime))
          st.finalSrt.isSome := by
  by_cases hA : (cfg.existingSrtMode = "skip"
      && noSpeechCachedHit st.meta (fileSig ie.sizeB ie.mtime)) = true
  · simp [processOneVideo, procResult, noSpeechCachedHit_procPrefix, hA]
  · cases htr : ie.transcribe with
    | error e =>
        simp [processOneVideo, procResult, noSpeechCachedHit_procPrefix, hA, htr,
          apply_ite ItemState.finalSrt, apply_ite ProcOut.res]
    | ok p =>
        obtain ⟨lang, srt⟩ := p
        by_cases hrt : hasRealText srt <;>
        by_cases hsubs : ((env.parseCues srt).getD []).length > MAX_SUBS <;>
        by_cases hen : lang = "en" <;>
        by_cases hmode : cfg.englishOutputMode = "non_english_only" <;>
        cases hmap : whisperToNllb lang <;>
        simp [processOneVideo, procResult, noSpeechCachedHit_procPrefix, hA, htr,
          hrt, hsubs, hen, hmode, hmap,
          apply_ite ItemState.finalSrt, apply_ite ProcOut.res]

/-- Counterexample to C1 as stated: at the fresh no-speech terminal and
at the segment-overflow terminal, `process_one_video` returns
`Result.ok = false`, not `true` — only the *cached* no-speech skip is a
success. -/
theorem claim_C1_counterexample :
    (processOneVideo ⟨"medium", "skip", "all", "dev", "m"⟩
        ⟨fun _ => some [], fun _ s => s, 0⟩
        ⟨"a.mp4", 1, 0, .ok ("en", ""), none⟩ "u-1"
        ⟨Json.obj [], none, none⟩).res
      = ⟨false, "no srt created (no speech detected)", "a.mp4", 0⟩
    ∧ (processOneVideo ⟨"medium", "skip", "all", "dev", "m"⟩
        ⟨fun _ => some (List.replicate 8001 ""), fun _ s => s, 0⟩
        ⟨"b.mp4", 1, 0, .ok ("fr", "bonjour"), none⟩ "u-1"
        ⟨Json.obj [], none, none⟩).res
      = ⟨false, "too many subtitle segments (8001), saved source only", "b.mp4", 0⟩ := by
  constructor
  · with_unfolding_all rfl
  · rw [processOneVideo_res]
    have hrt : hasRealText "bonjour" = true := by with_unfolding_all rfl
    simp only [procResult, noSpeechCachedHit, lookupKey, Option.getD_some,
      List.length_replicate, hrt, Bool.not_true]
    with_unfolding_all rfl

/-- C1, amended: `process_one_video` returns `Result.ok = false` for
exactly four terminal outcomes — transcription decode failure, *fresh*
no-speech detection, segment overflow, and an unmappable detected
language; every other terminal (both skip guards, both English modes and
a successful translation — the cached no-speech skip in particular)
returns `ok = true`. -/
theorem claim_C1 (cfg : Config) (env : Env) (ie : ItemEnv) (u : String)
    (st : ItemState) :
    (processOneVideo cfg env ie u st).res.ok = false ↔
      ((cfg.existingSrtMode = "skip"
          && noSpeechCachedHit st.meta (fileSig ie.sizeB ie.mtime)) = false
       ∧ (st.finalSrt.isSome && decide (cfg.existingSrtMode = "skip")) = false
       ∧ ((∃ e, ie.transcribe = .error e)
          ∨ ∃ lang srt, ie.transcribe = .ok (lang, srt)
              ∧ (hasRealText srt = false
                 ∨ (hasRealText srt = true
                    ∧ ((env.parseCues srt).getD []).length > MAX_SUBS)
                 ∨ (hasRealText srt = true
                    ∧ ¬ ((env.parseCues srt).getD []).length > MAX_SUBS
                    ∧ lang ≠ "en" ∧ whisperToNllb lang = none)))) := by
  rw [processOneVideo_res]
  by_cases hA : (cfg.existingSrtMode = "skip"
      && noSpeechCachedHit st.meta (fileSig ie.sizeB ie.mtime)) = true
  · simp [procResult, hA]
  · by_cases hB : (st.finalSrt.isSome && decide (cfg.existingSrtMode = "skip")) = true
    · simp [procResult, hA, hB]
    · cases htr : ie.transcribe with
      | error e => simp [procResult, hA, hB, htr]
      | ok p =>
          obtain ⟨lang, srt⟩ := p
          by_cases hrt : hasRealText srt <;>
          by_cases hsubs : ((env.parseCues srt).getD []).length > MAX_SUBS <;>
          by_cases hen : lang = "en" <;>
          by_cases hmode : cfg.englishOutputMode = "non_english_only" <;>
          cases hmap : whisperToNllb lang <;>
          simp [procResult, hA, hB, htr, hrt, hsubs, hen, hmode, hmap] <;>
          first
          | omega
          | exact ⟨_, _, ⟨rfl, rfl⟩, by simp_all⟩

/-- C4: when the transcript parses to more cues than the fixed ceiling
(8000), the translation collaborator is never invoked for the item on
any path; and on the path that reaches the guard (no skip fired, real
text present) the fallback file's content is byte-for-byte the
untranslated transcript. -/
theorem claim_C4 (cfg : Config) (env : Env) (ie : ItemEnv) (u : String)
    (st : ItemState) (lang srt : String)
    (htr : ie.transcribe = .ok (lang, srt))
    (hcues : ((env.parseCues srt).getD []).length > MAX_SUBS) :
    (processOneVideo cfg env ie u st).translated = false
    ∧ ((cfg.existingSrtMode = "skip"
          && noSpeechCachedHit st.meta (fileSig ie.sizeB ie.mtime)) = false →
       (st.finalSrt.isSome && decide (cfg.existingSrtMode = "skip")) = false →
       hasRealText srt = true →
       (processOneVideo cfg env ie u st).st.fallbackSrt = some srt) := by
  constructor
  · by_cases hA : (cfg.existingSrtMode = "skip"
        && noSpeechCachedHit st.meta (fileSig ie.sizeB ie.mtime)) = true
    · simp [processOneVideo, noSpeechCachedHit_procPrefix, hA]
    · by_cases hrt : hasRealText srt <;>
      simp [processOneVideo, noSpeechCachedHit_procPrefix, hA, htr, hrt, hcues,
        apply_ite ItemState.finalSrt, apply_ite ProcOut.translated]
  · intro hA hB hrt
    simp [processOneVideo, noSpeechCachedHit_procPrefix, hA, htr, hrt, hcues,
      apply_ite ItemState.finalSrt, apply_ite ProcOut.st, hB]

/-- Witness for C4: a 8001-cue transcript at a concrete item is not
translated and its fallback equals the transcript. -/
theorem claim_C4_witness :
    (processOneVideo ⟨"medium", "skip", "all", "dev", "m"⟩
        ⟨fun _ => some (List.replicate 8001 ""), fun _ s => s, 0⟩
        ⟨"b.mp4", 1, 0, .ok ("fr", "bonjour"), none⟩ "u-1"
        ⟨Json.obj [], none, none⟩).translated = false
    ∧ (processOneVideo ⟨"medium", "skip", "all", "dev", "m"⟩
        ⟨fun _ => some (List.replicate 8001 ""), fun _ s => s, 0⟩
        ⟨"b.mp4", 1, 0, .ok ("fr", "bonjour"), none⟩ "u-1"
        ⟨Json.obj [], none, none⟩).st.fallbackSrt = some "bonjour" := by
  have h := claim_C4 ⟨"medium", "skip", "all", "dev", "m"⟩
      ⟨fun _ => some (List.replicate 8001 ""), fun _ s => s, 0⟩
      ⟨"b.mp4", 1, 0, .ok ("fr", "bonjour"), none⟩ "u-1"
      ⟨Json.obj [], none, none⟩ "fr" "bonjour" rfl
      (by simp only [Option.getD_some, List.length_replicate]; decide)
  exact ⟨h.1, h.2 (by with_unfolding_all rfl) rfl (by with_unfolding_all rfl)⟩

/-- Every path through the probe arm of `get_media_data` runs the
external probe. -/
theorem getMediaDataProbe_probed (p : Option (List (String × Json)))
    (sig meta : Json) : (getMediaDataProbe p sig meta).probed = true := by
  cases p with
  | none => rfl
  | some raw =>
      by_cases hr : raw.isEmpty <;> simp [getMediaDataProbe, hr]

/-- The parsed probe schema is always tagged with the signature it was
computed against. -/
theorem parseMinimalMediaData_fileSig (raw : List (String × Json)) (sig : Json) :
    ∃ pd, parseMinimalMediaData raw sig = Json.obj pd
      ∧ lookupKey pd "file_sig" = some sig := by
  simp only [parseMinimalMediaData]
  rcases hfold : (match pyOr (jGet raw "streams") (Json.arr []) with
      | Json.arr s => s
      | _ => ([] : List Json)).foldl parseStream (none, [], []) with ⟨pv, audio, subs⟩
  exact ⟨_, rfl, by simp [lookupKey]⟩

/-- `==` on two `_file_sig` dicts is exactly agreement of both stat
fields. -/
theorem eqb_fileSig (s1 s2 : Nat) (m1 m2 : Rat) :
    (Json.eqb (fileSig s1 m1) (fileSig s2 m2) = true) ↔ (s1 = s2 ∧ m1 = m2) := by
  simp [fileSig, Json.eqb, keysSub, Json.eqbVals, lookupKey, jGet, Nat.cast_inj]

/-- C5: cached sub-trees are honoured only under a matching signature.
(a) `get_media_data` returns the cached `data` exactly when its stored
`file_sig` equals the current signature, probing nothing; (b) whenever
the probe did not run, a signature-matching cached entry existed and was
returned; (c) on a signature mismatch the collaborator is re-probed and
the fresh parse — tagged with the *current* signature — is returned;
(d) the no-speech cached skip can only fire when the stored
`no_speech.file_sig` equals the current signature, and (e) it fires
exactly in skip mode with that matching guard; (f) a change of size or
mtime makes the signatures unequal, forcing (c). -/
theorem claim_C5 (p : Option (List (String × Json))) (sig : Json)
    (meta : Json) (cfg : Config) (env : Env) (ie : ItemEnv) (u : String)
    (st : ItemState) :
    (∀ d dd, meta = Json.obj d → lookupKey d "data" = some (Json.obj dd) →
        Json.eqb (jGet dd "file_sig") sig = true →
        getMediaData p sig meta = ⟨Json.obj dd, true, meta, false⟩)
    ∧ ((getMediaData p sig meta).probed = false →
        ∃ d dd, meta = Json.obj d ∧ lookupKey d "data" = some (Json.obj dd)
          ∧ Json.eqb (jGet dd "file_sig") sig = true
          ∧ (getMediaData p sig meta).data = Json.obj dd)
    ∧ (∀ d dd raw, meta = Json.obj d → lookupKey d "data" = some (Json.obj dd) →
        Json.eqb (jGet dd "file_sig") sig = false →
        p = some raw → raw.isEmpty = false →
        (getMediaData p sig meta).probed = true
        ∧ (getMediaData p sig meta).data = parseMinimalMediaData raw sig
        ∧ ∃ pd, parseMinimalMediaData raw sig = Json.obj pd
            ∧ lookupKey pd "file_sig" = some sig)
    ∧ (∀ doc s, noSpeechCachedHit doc s = true →
        ∃ d sd ns, doc = Json.obj d ∧ lookupKey d "system" = some (Json.obj sd)
          ∧ lookupKey sd "no_speech" = some (Json.obj ns)
          ∧ lookupKey ns "detected" = some (Json.bool true)
          ∧ Json.eqb (jGet ns "file_sig") s = true)
    ∧ ((processOneVideo cfg env ie u st).res
          = ⟨true, "skipped (no-speech cached)", ie.name, 0⟩
        ↔ (cfg.existingSrtMode = "skip"
           ∧ noSpeechCachedHit st.meta (fileSig ie.sizeB ie.mtime) = true))
    ∧ (∀ s1 s2 : Nat, ∀ m1 m2 : Rat, (s1 ≠ s2 ∨ m1 ≠ m2) →
        Json.eqb (fileSig s1 m1) (fileSig s2 m2) = false) := by
  refine ⟨?_, ?_, ?_, ?_, ?_, ?_⟩
  · intro d dd hm hd he
    subst hm
    simp [getMediaData, hd, he]
  · intro hp
    cases meta with
    | obj d =>
        cases hd : lookupKey d "data" with
        | none =>
            rw [show getMediaData p sig (Json.obj d)
                = getMediaDataProbe p sig (Json.obj d) by simp [getMediaData, hd]] at hp
            rw [getMediaDataProbe_probed] at hp
            exact absurd hp (by simp)
        | some w =>
            cases w with
            | obj dd =>
                by_cases he : Json.eqb (jGet dd "file_sig") sig = true
                · exact ⟨d, dd, rfl, hd, he, by simp [getMediaData, hd, he]⟩
                · rw [show getMediaData p sig (Json.obj d)
                      = getMediaDataProbe p sig (Json.obj d) by
                        simp [getMediaData, hd, he]] at hp
                  rw [getMediaDataProbe_probed] at hp
                  exact absurd hp (by simp)
            | null => rw [show getMediaData p sig (Json.obj d)
                  = getMediaDataProbe p sig (Json.obj d) by simp [getMediaData, hd]] at hp
                      rw [getMediaDataProbe_probed] at hp
                      exact absurd hp (by simp)
            | bool b => rw [show getMediaData p sig (Json.obj d)
                  = getMediaDataProbe p sig (Json.obj d) by simp [getMediaData, hd]] at hp
                        rw [getMediaDataProbe_probed] at hp
                        exact absurd hp (by simp)
            | num q => rw [show getMediaData p sig (Json.obj d)
                  = getMediaDataProbe p sig (Json.obj d) by simp [getMediaData, hd]] at hp
                       rw [getMediaDataProbe_probed] at hp
                       exact absurd hp (by simp)
            | str s => rw [show getMediaData p sig (Json.obj d)
                  = getMediaDataProbe p sig (Json.obj d) by simp [getMediaData, hd]] at hp
                       rw [getMediaDataProbe_probed] at hp
                       exact absurd hp (by simp)
            | arr l => rw [show getMediaData p sig (Json.obj d)
                  = getMediaDataProbe p sig (Json.obj d) by simp [getMediaData, hd]] at hp
                       rw [getMediaDataProbe_probed] at hp
                       exact absurd hp (by simp)
    | null => rw [show getMediaData p sig Json.null
          = getMediaDataProbe p sig Json.null from rfl, getMediaDataProbe_probed] at hp
              exact absurd hp (by simp)
    | bool b => rw [show getMediaData p sig (Json.bool b)
          = getMediaDataProbe p sig (Json.bool b) from rfl, getMediaDataProbe_probed] at hp
                exact absurd hp (by simp)
    | num q => rw [show getMediaData p sig (Json.num q)
          = getMediaDataProbe p sig (Json.num q) from rfl, getMediaDataProbe_probed] at hp
               exact absurd hp (by simp)
    | str s => rw [show getMediaData p sig (Json.str s)
          = getMediaDataProbe p sig (Json.str s) from rfl, getMediaDataProbe_probed] at hp
               exact absurd hp (by simp)
    | arr l => rw [show getMediaData p sig (Json.arr l)
          = getMediaDataProbe p sig (Json.arr l) from rfl, getMediaDataProbe_probed] at hp
               exact absurd hp (by simp)
  · intro d dd raw hm hd he hp hraw
    subst hm hp
    have hgd : getMediaData (some raw) sig (Json.obj d)
        = getMediaDataProbe (some raw) sig (Json.obj d) := by
      simp [getMediaData, hd, he]
    rw [hgd]
    simp only [getMediaDataProbe, hraw, Bool.false_eq_true, if_false]
    exact ⟨trivial, trivial, parseMinimalMediaData_fileSig raw sig⟩
  · intro doc s h
    cases doc with
    | obj d =>
        cases hd : lookupKey d "system" with
        | none => simp [noSpeechCachedHit, hd] at h
        | some w =>
            cases w with
            | obj sd =>
                cases hns : lookupKey sd "no_speech" with
                | none => simp [noSpeechCachedHit, hd, hns] at h
                | some w2 =>
                    cases w2 with
                    | obj ns =>
                        simp only [noSpeechCachedHit, hd, hns, Bool.and_eq_true] at h
                        refine ⟨d, sd, ns, rfl, hd, hns, ?_, h.2⟩
                        have h1 := h.1
                        cases hdet : lookupKey ns "detected" with
                        | none => rw [hdet] at h1; simp at h1
                        | some w3 =>
                            cases w3 with
                            | bool b =>
                                cases b
                                · rw [hdet] at h1; simp at h1
                                · rfl
                            | null => rw [hdet] at h1; simp at h1
                            | num q => rw [hdet] at h1; simp at h1
                            | str s3 => rw [hdet] at h1; simp at h1
                            | arr l => rw [hdet] at h1; simp at h1
                            | obj o => rw [hdet] at h1; simp at h1
                    | null => simp [noSpeechCachedHit, hd, hns] at h
                    | bool b => simp [noSpeechCachedHit, hd, hns] at h
                    | num q => simp [noSpeechCachedHit, hd, hns] at h
                    | str s2 => simp [noSpeechCachedHit, hd, hns] at h
                    | arr l => simp [noSpeechCachedHit, hd, hns] at h
            | null => simp [noSpeechCachedHit, hd] at h
            | bool b => simp [noSpeechCachedHit, hd] at h
            | num q => simp [noSpeechCachedHit, hd] at h
            | str s2 => simp [noSpeechCachedHit, hd] at h
            | arr l => simp [noSpeechCachedHit, hd] at h
    | null => simp [noSpeechCachedHit] at h
    | bool b => simp [noSpeechCachedHit] at h
    | num q => simp [noSpeechCachedHit] at h
    | str s2 => simp [noSpeechCachedHit] at h
    | arr l => simp [noSpeechCachedHit] at h
  · rw [processOneVideo_res]
    by_cases hA : (cfg.existingSrtMode = "skip"
        && noSpeechCachedHit st.meta (fileSig ie.sizeB ie.mtime)) = true
    · simp only [Bool.and_eq_true, decide_eq_true_eq] at hA
      simp [procResult, hA]
    · have hA' := hA
      simp only [Bool.and_eq_true, decide_eq_true_eq, not_and] at hA'
      constructor
      · intro h
        exfalso
        revert h
        by_cases hB : (st.finalSrt.isSome && decide (cfg.existingSrtMode = "skip")) = true
        · simp [procResult, hA, hB]
        · cases htr : ie.transcribe with
          | error e => simp [procResult, hA, hB, htr]
          | ok p2 =>
              obtain ⟨lang, srt⟩ := p2
              by_cases hrt : hasRealText srt <;>
              by_cases hsubs : ((env.parseCues srt).getD []).length > MAX_SUBS <;>
              by_cases hen : lang = "en" <;>
              by_cases hmode : cfg.englishOutputMode = "non_english_only" <;>
              cases hmap : whisperToNllb lang <;>
              simp [procResult, hA, hB, htr, hrt, hsubs, hen, hmode, hmap]
      · intro h
        exact absurd (by simp [h.1, h.2] : (cfg.existingSrtMode = "skip"
            && noSpeechCachedHit st.meta (fileSig ie.sizeB ie.mtime)) = true) hA
  · intro s1 s2 m1 m2 h
    rcases hb : Json.eqb (fileSig s1 m1) (fileSig s2 m2) with _ | _
    · rfl
    · have := (eqb_fileSig s1 s2 m1 m2).mp hb
      rcases h with h | h <;> exact absurd (by tauto) h

/-- Witness for C5 at concrete data: a matching signature serves the
cache without probing; bumping the size probes again; the two signatures
compare unequal; and a cached no-speech record with the current
signature makes the processor skip. -/
theorem claim_C5_witness :
    getMediaData (some [("format", Json.obj [("duration", Json.num 5)])])
        (fileSig 1 0)
        (Json.obj [("data", Json.obj
          [("file_sig", fileSig 1 0), ("duration_s", Json.num 5)])])
      = ⟨Json.obj [("file_sig", fileSig 1 0), ("duration_s", Json.num 5)], true,
         Json.obj [("data", Json.obj
          [("file_sig", fileSig 1 0), ("duration_s", Json.num 5)])], false⟩
    ∧ (getMediaData (some [("format", Json.obj [("duration", Json.num 5)])])
        (fileSig 2 0)
        (Json.obj [("data", Json.obj
          [("file_sig", fileSig 1 0), ("duration_s", Json.num 5)])])).probed = true
    ∧ Json.eqb (fileSig 1 0) (fileSig 2 0) = false
    ∧ (processOneVideo ⟨"medium", "skip", "all", "dev", "m"⟩
        ⟨fun _ => some [], fun _ s => s, 0⟩
        ⟨"a.mp4", 1, 0, .ok ("en", "hello"), none⟩ "u-1"
        ⟨Json.obj [("system", Json.obj [("no_speech", Json.obj
           [("detected", Json.bool true), ("file_sig", fileSig 1 0)])])],
         none, none⟩).res
      = ⟨true, "skipped (no-speech cached)", "a.mp4", 0⟩ := by
  refine ⟨?_, ?_, ?_, ?_⟩
  · exact (claim_C5 (some [("format", Json.obj [("duration", Json.num 5)])])
      (fileSig 1 0) _ ⟨"medium", "skip", "all", "dev", "m"⟩
      ⟨fun _ => some [], fun _ s => s, 0⟩
      ⟨"a.mp4", 1, 0, .ok ("en", "hello"), none⟩ "u-1"
      ⟨Json.obj [], none, none⟩).1 _ _ rfl (by with_unfolding_all rfl)
      (by with_unfolding_all rfl)
  · exact ((claim_C5 (some [("format", Json.obj [("duration", Json.num 5)])])
      (fileSig 2 0) _ ⟨"medium", "skip", "all", "dev", "m"⟩
      ⟨fun _ => some [], fun _ s => s, 0⟩
      ⟨"a.mp4", 1, 0, .ok ("en", "hello"), none⟩ "u-1"
      ⟨Json.obj [], none, none⟩).2.2.1 _ _ _ rfl (by with_unfolding_all rfl)
      (by with_unfolding_all rfl) rfl rfl).1
  · exact (claim_C5 none (fileSig 1 0) (Json.obj [])
      ⟨"medium", "skip", "all", "dev", "m"⟩ ⟨fun _ => some [], fun _ s => s, 0⟩
      ⟨"a.mp4", 1, 0, .ok ("en", "hello"), none⟩ "u-1"
      ⟨Json.obj [], none, none⟩).2.2.2.2.2 1 2 0 0 (Or.inl (by decide))
  · exact (claim_C5 none (fileSig 1 0) (Json.obj [])
      ⟨"medium", "skip", "all", "dev", "m"⟩ ⟨fun _ => some [], fun _ s => s, 0⟩
      ⟨"a.mp4", 1, 0, .ok ("en", "hello"), none⟩ "u-1"
      ⟨Json.obj [("system", Json.obj [("no_speech", Json.obj
         [("detected", Json.bool true), ("file_sig", fileSig 1 0)])])],
       none, none⟩).2.2.2.2.1.mpr ⟨rfl, by with_unfolding_all rfl⟩

/-! ### Cancellation lemmas for the batch loops (C7) -/

section Batch

variable {ι : Type} [DecidableEq ι]

/-- While every flag read during the scan phase returns false, the scan
runs as if no cancellation source existed. -/
theorem scanLoop_cancel_eq (be : BatchEnv ι) (cancel : Nat → Bool) :
    ∀ (vs : List ι) (s : ScanState ι),
    (∀ c, s.checkCtr ≤ c → c < s.checkCtr + vs.length → cancel c = false) →
    scanLoop be cancel vs s = scanLoop be (fun _ => false) vs s := by
  intro vs
  induction vs with
  | nil => intro s _; rfl
  | cons v rest ih =>
      intro s h
      have h0 : cancel s.checkCtr = false := h s.checkCtr le_rfl (by simp)
      have hctr : (scanItem be { s with checkCtr := s.checkCtr + 1 } v).1.checkCtr
          = s.checkCtr + 1 := rfl
      simp only [scanLoop, h0, Bool.false_eq_true, if_false]
      rw [ih]
      intro c hc1 hc2
      rw [hctr] at hc1 hc2
      exact h c (by omega) (by simp [List.length_cons]; omega)

/-- The scan loop without cancellation: no early return, one flag read
and one duration per item, and no subtitle file of any item touched. -/
theorem scanLoop_false_spec (be : BatchEnv ι) :
    ∀ (vs : List ι) (s : ScanState ι),
    (scanLoop be (fun _ => false) vs s).2.2 = false
    ∧ (scanLoop be (fun _ => false) vs s).1.checkCtr = s.checkCtr + vs.length
    ∧ (scanLoop be (fun _ => false) vs s).2.1.length = vs.length
    ∧ ∀ j, ((scanLoop be (fun _ => false) vs s).1.world j).finalSrt
              = (s.world j).finalSrt
        ∧ ((scanLoop be (fun _ => false) vs s).1.world j).fallbackSrt
              = (s.world j).fallbackSrt := by
  intro vs
  induction vs with
  | nil => intro s; exact ⟨rfl, by simp [scanLoop], rfl, fun j => ⟨rfl, rfl⟩⟩
  | cons v rest ih =>
      intro s
      simp only [scanLoop, Bool.false_eq_true, if_false]
      rcases hrec : scanLoop be (fun _ => false) rest
          (scanItem be { s with checkCtr := s.checkCtr + 1 } v).1 with ⟨s3, durs, c⟩
      have := ih (scanItem be { s with checkCtr := s.checkCtr + 1 } v).1
      rw [hrec] at this
      have hw : ∀ j, ((scanItem be { s with checkCtr := s.checkCtr + 1 } v).1.world j).finalSrt
            = (s.world j).finalSrt
          ∧ ((scanItem be { s with checkCtr := s.checkCtr + 1 } v).1.world j).fallbackSrt
            = (s.world j).fallbackSrt := by
        intro j
        simp only [scanItem, updW]
        by_cases hj : j = v <;> simp [hj]
      refine ⟨this.1, ?_, by simpa using this.2.2.1, ?_⟩
      · have hctr : (scanItem be { s with checkCtr := s.checkCtr + 1 } v).1.checkCtr
            = s.checkCtr + 1 := rfl
        rw [this.2.1, hctr]
        simp [List.length_cons]; omega
      · intro j
        exact ⟨(this.2.2.2 j).1.trans (hw j).1, (this.2.2.2 j).2.trans (hw j).2⟩

/-- If the flag reads false through `m` full items and first reads true
at the trailing check of item `m + 1`, the cancelled loop is exactly the
uncancelled loop over the first `m + 1` items. -/
theorem processLoop_cancel_take (be : BatchEnv ι) (cancel : Nat → Bool)
    (total : Nat) (tw : Rat) :
    ∀ (m : Nat) (pairs : List (ι × Rat)) (s : RunState ι) (ck : Nat),
    s.checkCtr = ck →
    m + 1 ≤ pairs.length →
    (∀ c, ck ≤ c → c < ck + 2 * m + 1 → cancel c = false) →
    cancel (ck + 2 * m + 1) = true →
    processLoop be cancel total tw pairs s
      = processLoop be (fun _ => false) total tw (pairs.take (m + 1)) s := by
  intro m
  induction m with
  | zero =>
      intro pairs s ck hck hlen hfalse htrue
      subst hck
      cases pairs with
      | nil => simp at hlen
      | cons p rest =>
          obtain ⟨v, dur⟩ := p
          have h0 : cancel s.checkCtr = false := hfalse s.checkCtr le_rfl (by omega)
          simp only [List.take_succ_cons, List.take_zero, processLoop, h0,
            Bool.false_eq_true, if_false]
          rw [show s.checkCtr + 2 * 0 + 1 = s.checkCtr + 1 from by ring] at htrue
          simp [htrue]
  | succ m ih =>
      intro pairs s ck hck hlen hfalse htrue
      subst hck
      cases pairs with
      | nil => simp at hlen
      | cons p rest =>
          obtain ⟨v, dur⟩ := p
          have h0 : cancel s.checkCtr = false := hfalse s.checkCtr le_rfl (by omega)
          have h1 : cancel (s.checkCtr + 1) = false :=
            hfalse (s.checkCtr + 1) (by omega) (by omega)
          simp only [List.take_succ_cons, processLoop, h0, h1,
            Bool.false_eq_true, if_false]
          exact ih rest _ (s.checkCtr + 2) rfl (by simpa using hlen)
            (fun c hc1 hc2 => hfalse c (by omega) (by omega))
            (by rw [show s.checkCtr + 2 + 2 * m + 1 = s.checkCtr + 2 * (m + 1) + 1
                  from by ring]
                exact htrue)

/-- Without cancellation, the loop appends exactly one `Result` per item
to the accumulator. -/
theorem processLoop_false_results_length (be : BatchEnv ι) (total : Nat)
    (tw : Rat) :
    ∀ (pairs : List (ι × Rat)) (s : RunState ι),
    (processLoop be (fun _ => false) total tw pairs s).results.length
      = s.results.length + pairs.length := by
  intro pairs
  induction pairs with
  | nil => intro s; simp [processLoop]
  | cons p rest ih =>
      intro s
      obtain ⟨v, dur⟩ := p
      simp only [processLoop, Bool.false_eq_true, if_false]
      rw [ih]
      simp only [List.length_append, List.length_cons, List.length_nil]
      omega

/-- The accumulated results are never dropped: any prefix of the
incoming accumulator is untouched by the loop. -/
theorem processLoop_false_results_take (be : BatchEnv ι) (total : Nat)
    (tw : Rat) :
    ∀ (pairs : List (ι × Rat)) (s : RunState ι) (n : Nat),
    n ≤ s.results.length →
    (processLoop be (fun _ => false) total tw pairs s).results.take n
      = s.results.take n := by
  intro pairs
  induction pairs with
  | nil => intro s n _; simp [processLoop]
  | cons p rest ih =>
      intro s n hn
      obtain ⟨v, dur⟩ := p
      simp only [processLoop, Bool.false_eq_true, if_false]
      rw [ih _ n (by simp; omega)]
      simp only [List.take_append_of_le_length hn]

/-- The loop is a fold: splitting the item list splits the loop. -/
theorem processLoop_false_append (be : BatchEnv ι) (total : Nat) (tw : Rat) :
    ∀ (a b : List (ι × Rat)) (s : RunState ι),
    processLoop be (fun _ => false) total tw (a ++ b) s
      = processLoop be (fun _ => false) total tw b
          (processLoop be (fun _ => false) total tw a s) := by
  intro a
  induction a with
  | nil => intro b s; rfl
  | cons p rest ih =>
      intro b s
      obtain ⟨v, dur⟩ := p
      simp only [List.cons_append, processLoop, Bool.false_eq_true, if_false]
      exact ih b _

/-- The loop writes only the items it processes. -/
theorem processLoop_frame (be : BatchEnv ι) (cancel : Nat → Bool)
    (total : Nat) (tw : Rat) :
    ∀ (pairs : List (ι × Rat)) (s : RunState ι) (j : ι),
    j ∉ pairs.map Prod.fst →
    (processLoop be cancel total tw pairs s).world j = s.world j := by
  intro pairs
  induction pairs with
  | nil => intro s j _; rfl
  | cons p rest ih =>
      intro s j hj
      obtain ⟨v, dur⟩ := p
      simp only [List.map_cons, List.mem_cons] at hj
      push_neg at hj
      by_cases hc : cancel s.checkCtr = true
      · simp [processLoop, hc]
      · by_cases hc2 : cancel (s.checkCtr + 1) = true
        · simp [processLoop, hc, hc2, updW, hj.1]
        · simp [processLoop, hc, hc2, ih _ j hj.2, updW, hj.1]

/-- C7: cancellation is polled before each item (and after it); when
every flag read returns false through the scan and the first `m + 1`
items and the read after item `m + 1` completes returns true, the batch
returns exactly the `m + 1` Results accumulated so far — the same
prefix an uncancelled run would produce — and no later item is touched:
its final and fallback subtitle files keep their initial state. With 10
filtered items and the flag first read true after the 5th finishes
(`m = 4`), exactly 5 Results come back and items 6 through 10 are
untouched. -/
theorem claim_C7 (be : BatchEnv ι) (cancel : Nat → Bool) (videos : List ι)
    (w : ι → ItemState) (m : Nat)
    (hm : m + 1 ≤ (filterVideosForRun be.cfg.existingSrtMode
        (fun v => (w v).finalSrt.isSome) videos).length)
    (hfalse : ∀ c, c < (filterVideosForRun be.cfg.existingSrtMode
        (fun v => (w v).finalSrt.isSome) videos).length + 2 * m + 1 →
        cancel c = false)
    (htrue : cancel ((filterVideosForRun be.cfg.existingSrtMode
        (fun v => (w v).finalSrt.isSome) videos).length + 2 * m + 1) = true) :
    (runBatch be cancel videos w 0 0).results.length = m + 1
    ∧ (runBatch be cancel videos w 0 0).results
        = (runBatch be (fun _ => false) videos w 0 0).results.take (m + 1)
    ∧ ∀ j, j ∉ (filterVideosForRun be.cfg.existingSrtMode
          (fun v => (w v).finalSrt.isSome) videos).take (m + 1) →
        ((runBatch be cancel videos w 0 0).world j).finalSrt = (w j).finalSrt
        ∧ ((runBatch be cancel videos w 0 0).world j).fallbackSrt
            = (w j).fallbackSrt := by
  set F := filterVideosForRun be.cfg.existingSrtMode
      (fun v => (w v).finalSrt.isSome) videos with hF
  have hspec := scanLoop_false_spec be F ⟨w, 0, 0⟩
  have hscan_eq : scanLoop be cancel F ⟨w, 0, 0⟩
      = scanLoop be (fun _ => false) F ⟨w, 0, 0⟩ := by
    apply scanLoop_cancel_eq
    intro c _ h2
    exact hfalse c (by simp only at h2; omega)
  rcases hscan : scanLoop be (fun _ => false) F ⟨w, 0, 0⟩ with ⟨s1, durs, cflag⟩
  rw [hscan] at hspec hscan_eq
  have hcflag : cflag = false := hspec.1
  subst hcflag
  have hck : s1.checkCtr = F.length := by
    have := hspec.2.1
    simpa using this
  have hdlen : durs.length = F.length := hspec.2.2.1
  have hplen : (F.zip durs).length = F.length := by
    rw [List.length_zip, hdlen, min_self]
  have hmapfst : (F.zip durs).map Prod.fst = F :=
    List.map_fst_zip F durs (by omega)
  -- the cancelled batch is the uncancelled loop over the first m+1 items
  have hrb_c : runBatch be cancel videos w 0 0
      = { results := (processLoop be (fun _ => false) F.length durs.sum
            ((F.zip durs).take (m + 1))
            ⟨s1.world, s1.uuidCtr, s1.checkCtr, [], [], 0, 0⟩).results,
          samples := (processLoop be (fun _ => false) F.length durs.sum
            ((F.zip durs).take (m + 1))
            ⟨s1.world, s1.uuidCtr, s1.checkCtr, [], [], 0, 0⟩).samples,
          world := (processLoop be (fun _ => false) F.length durs.sum
            ((F.zip durs).take (m + 1))
            ⟨s1.world, s1.uuidCtr, s1.checkCtr, [], [], 0, 0⟩).world,
          uuidCtr := (processLoop be (fun _ => false) F.length durs.sum
            ((F.zip durs).take (m + 1))
            ⟨s1.world, s1.uuidCtr, s1.checkCtr, [], [], 0, 0⟩).uuidCtr,
          checkCtr := (processLoop be (fun _ => false) F.length durs.sum
            ((F.zip durs).take (m + 1))
            ⟨s1.world, s1.uuidCtr, s1.checkCtr, [], [], 0, 0⟩).checkCtr } := by
    simp only [runBatch, ← hF, hscan_eq, hscan, Bool.false_eq_true, if_false]
    rw [processLoop_cancel_take be cancel F.length durs.sum m (F.zip durs) _
      F.length (by simpa using hck) (by omega)
      (fun c h1 h2 => hfalse c (by omega)) htrue]
  have hrb_f : runBatch be (fun _ => false) videos w 0 0
      = { results := (processLoop be (fun _ => false) F.length durs.sum
            (F.zip durs) ⟨s1.world, s1.uuidCtr, s1.checkCtr, [], [], 0, 0⟩).results,
          samples := (processLoop be (fun _ => false) F.length durs.sum
            (F.zip durs) ⟨s1.world, s1.uuidCtr, s1.checkCtr, [], [], 0, 0⟩).samples,
          world := (processLoop be (fun _ => false) F.length durs.sum
            (F.zip durs) ⟨s1.world, s1.uuidCtr, s1.checkCtr, [], [], 0, 0⟩).world,
          uuidCtr := (processLoop be (fun _ => false) F.length durs.sum
            (F.zip durs) ⟨s1.world, s1.uuidCtr, s1.checkCtr, [], [], 0, 0⟩).uuidCtr,
          checkCtr := (processLoop be (fun _ => false) F.length durs.sum
            (F.zip durs) ⟨s1.world, s1.uuidCtr, s1.checkCtr, [], [], 0, 0⟩).checkCtr } := by
    simp only [runBatch, ← hF, hscan, Bool.false_eq_true, if_false]
  have hlen_take : ((F.zip durs).take (m + 1)).length = m + 1 := by
    rw [List.length_take]
    omega
  refine ⟨?_, ?_, ?_⟩
  · rw [hrb_c]
    simp only [processLoop_false_results_length]
    simpa using hlen_take
  · rw [hrb_c, hrb_f]
    simp only []
    conv_rhs => rw [show F.zip durs
        = (F.zip durs).take (m + 1) ++ (F.zip durs).drop (m + 1)
        from (List.take_append_drop _ _).symm]
    rw [processLoop_false_append]
    have hL : (processLoop be (fun _ => false) F.length durs.sum
        ((F.zip durs).take (m + 1))
        ⟨s1.world, s1.uuidCtr, s1.checkCtr, [], [], 0, 0⟩).results.length = m + 1 := by
      rw [processLoop_false_results_length]
      simpa using hlen_take
    rw [processLoop_false_results_take be F.length durs.sum
      ((F.zip durs).drop (m + 1)) _ (m + 1) (by rw [hL])]
    exact (List.take_of_length_le (by rw [hL])).symm
  · intro j hj
    rw [hrb_c]
    have hjz : j ∉ ((F.zip durs).take (m + 1)).map Prod.fst := by
      simp only [List.map_take, hmapfst]
      exact hj
    simp only [processLoop_frame be (fun _ => false) F.length durs.sum
      ((F.zip durs).take (m + 1)) _ j hjz]
    exact ⟨(hspec.2.2.2 j).1, (hspec.2.2.2 j).2⟩

/-- The scan phase writes only the cells of the items it scans. -/
theorem scanLoop_frame (be : BatchEnv ι) (cancel : Nat → Bool) :
    ∀ (vs : List ι) (s : ScanState ι) (j : ι), j ∉ vs →
    (scanLoop be cancel vs s).1.world j = s.world j := by
  intro vs
  induction vs with
  | nil => intro s j _; rfl
  | cons v rest ih =>
      intro s j hj
      simp only [List.mem_cons] at hj
      push_neg at hj
      by_cases hc : cancel s.checkCtr = true
      · simp [scanLoop, hc]
      · simp only [scanLoop, hc, Bool.false_eq_true, if_false]
        rw [ih _ j hj.2]
        simp [scanItem, updW, hj.1]

/-- The scan phase changes no item's no-speech guard, for any signature. -/
theorem scanLoop_rel (be : BatchEnv ι) :
    ∀ (vs : List ι) (s : ScanState ι) (j : ι) (sig : Json),
    noSpeechCachedHit ((scanLoop be (fun _ => false) vs s).1.world j).meta sig
      = noSpeechCachedHit (s.world j).meta sig := by
  intro vs
  induction vs with
  | nil => intro s j sig; rfl
  | cons v rest ih =>
      intro s j sig
      simp only [scanLoop, Bool.false_eq_true, if_false]
      rw [ih]
      simp only [scanItem, updW]
      by_cases hj : j = v
      · subst hj
        simp only [if_pos rfl, if_true]
        rw [noSpeechCachedHit_ensureMediaId, noSpeechCachedHit_setScanFields,
          noSpeechCachedHit_getMediaData, noSpeechCachedHit_getMediaData]
      · simp [hj]

/-- The appended duration of a scan step reads only the item's cell. -/
theorem scanItem_dur_cell (be : BatchEnv ι) (s s' : ScanState ι) (v : ι)
    (h : s.world v = s'.world v) :
    (scanItem be s v).2 = (scanItem be s' v).2 := by
  simp only [scanItem, h]

/-- Over pairwise-distinct items, each scanned duration is a function of
the item's incoming cell alone. -/
theorem scanLoop_durs (be : BatchEnv ι) :
    ∀ (vs : List ι) (s : ScanState ι), vs.Nodup →
    (scanLoop be (fun _ => false) vs s).2.1
      = vs.map (fun v => (scanItem be s v).2) := by
  intro vs
  induction vs with
  | nil => intro s _; rfl
  | cons v rest ih =>
      intro s hnd
      simp only [List.nodup_cons] at hnd
      simp only [scanLoop, Bool.false_eq_true, if_false, List.map_cons]
      rcases hrec : scanLoop be (fun _ => false) rest
          (scanItem be { s with checkCtr := s.checkCtr + 1 } v).1 with ⟨s3, durs, c⟩
      have hih := ih (scanItem be { s with checkCtr := s.checkCtr + 1 } v).1 hnd.2
      rw [hrec] at hih
      have hheads : (scanItem be { s with checkCtr := s.checkCtr + 1 } v).2
          = (scanItem be s v).2 :=
        scanItem_dur_cell be _ _ v rfl
      have hih2 : durs = List.map (fun u =>
          (scanItem be (scanItem be { s with checkCtr := s.checkCtr + 1 } v).1 u).2) rest := by
        simpa using hih
      simp only [hih2, hheads]
      congr 1
      apply List.map_congr_left
      intro u hu
      apply scanItem_dur_cell
      show ((scanItem be { s with checkCtr := s.checkCtr + 1 } v).1.world u)
          = s.world u
      simp only [scanItem, updW]
      have : u ≠ v := fun e => hnd.1 (e ▸ hu)
      simp [this]

/-- The final progress sample of a non-empty uncancelled loop: the
trailing per-item sample, carrying the global file counts and the
accumulated work against the scanned total. -/
theorem processLoop_false_last_sample (be : BatchEnv ι) (total : Nat)
    (tw : Rat) :
    ∀ (pairs : List (ι × Rat)) (s : RunState ι), pairs ≠ [] →
    ∃ smp, (processLoop be (fun _ => false) total tw pairs s).samples.getLast?
        = some smp
      ∧ smp.done = ((s.completed + pairs.length : Nat) : Int)
      ∧ smp.total = (total : Int)
      ∧ smp.doneWork = pyInt (s.doneWork + (pairs.map Prod.snd).sum)
      ∧ smp.totalWork = pyInt tw := by
  intro pairs
  induction pairs with
  | nil => intro s h; exact absurd rfl h
  | cons p rest ih =>
      intro s _
      obtain ⟨v, dur⟩ := p
      simp only [processLoop, Bool.false_eq_true, if_false]
      cases hrest : rest with
      | nil =>
          simp only [processLoop]
          rw [List.getLast?_concat]
          exact ⟨_, rfl, by simp, rfl, by simp, rfl⟩
      | cons q qs =>
          rw [← hrest]
          rcases ih _ (by simp [hrest]) with ⟨smp, hlast, hdone, htot, hdw, htw⟩
          refine ⟨smp, hlast, ?_, htot, ?_, htw⟩
          · rw [hdone]
            simp only [List.length_cons]
            push_cast
            ring
          · rw [hdw]
            simp only [List.map_cons, List.sum_cons]
            ring_nf

omit [DecidableEq ι] in
/-- Keeping prefilter-passing items: when no listed item should fast
skip, the prefilter is the identity. -/
theorem filterVideosForRun_all_keep (mode : String) (fs : ι → Bool)
    (videos : List ι)
    (h : ∀ v ∈ videos, shouldSkipFast mode (fs v) = false) :
    filterVideosForRun mode fs videos = videos := by
  by_cases hm : mode = "skip"
  · subst hm
    simp only [filterVideosForRun]
    rw [if_neg (by simp)]
    apply List.filter_eq_self.mpr
    intro v hv
    simp [h v hv]
  · simp [filterVideosForRun, hm]

/-- A full-length slice peels off the chunk loop. -/
theorem chunkGo_append (s : Nat) (a rest : List α) (ha : a.length = s + 1) :
    chunkGo s (a ++ rest) = a :: chunkGo s rest := by
  cases a with
  | nil => simp at ha
  | cons x xs =>
      have hxs : xs.length = s := by simpa using ha
      have h1 : List.take (s + 1) (x :: (xs ++ rest)) = x :: xs := by
        rw [List.take_succ_cons, ← hxs, List.take_left]
      have h2 : List.drop s (xs ++ rest) = rest := by
        rw [← hxs, List.drop_left]
      simp only [List.cons_append, chunkGo, h1, h2]

/-- The `Result` an item will produce, read off its current cell (the
two state-dependent guards) and the environment. -/
def predictedResult (be : BatchEnv ι) (w : ι → ItemState) (v : ι) : Result :=
  procResult be.cfg be.env (be.ienv v)
    (noSpeechCachedHit (w v).meta (fileSig (be.ienv v).sizeB (be.ienv v).mtime))
    ((w v).finalSrt.isSome)

/-- Over pairwise-distinct items whose guard pair agrees with `R`, the
uncancelled loop appends exactly the predicted results, in order. -/
theorem processLoop_false_results_map (be : BatchEnv ι) (total : Nat)
    (tw : Rat) :
    ∀ (pairs : List (ι × Rat)) (s : RunState ι) (R : ι → Bool × Bool),
    (pairs.map Prod.fst).Nodup →
    (∀ v ∈ pairs.map Prod.fst,
        noSpeechCachedHit (s.world v).meta
            (fileSig (be.ienv v).sizeB (be.ienv v).mtime) = (R v).1
        ∧ (s.world v).finalSrt.isSome = (R v).2) →
    (processLoop be (fun _ => false) total tw pairs s).results
      = s.results ++ pairs.map (fun p =>
          procResult be.cfg be.env (be.ienv p.1) (R p.1).1 (R p.1).2) := by
  intro pairs
  induction pairs with
  | nil => intro s R _ _; simp [processLoop]
  | cons p rest ih =>
      intro s R hnd hR
      obtain ⟨v, dur⟩ := p
      simp only [List.map_cons, List.nodup_cons] at hnd
      have hv := hR v (by simp)
      simp only [processLoop, Bool.false_eq_true, if_false]
      rw [ih _ R hnd.2 ?hrest]
      case hrest =>
        intro u hu
        have huv : u ≠ v := fun e => hnd.1 (e ▸ hu)
        have : updW s.world v (processOneVideo be.cfg be.env (be.ienv v)
            (be.uuid s.uuidCtr)
            { meta := setScanFields (s.world v).meta be.env.now,
              finalSrt := (s.world v).finalSrt,
              fallbackSrt := (s.world v).fallbackSrt }).st u = s.world u := by
          simp [updW, huv]
        simp only [this]
        exact hR u (by simp [hu])
      have hres : (processOneVideo be.cfg be.env (be.ienv v) (be.uuid s.uuidCtr)
          { meta := setScanFields (s.world v).meta be.env.now,
            finalSrt := (s.world v).finalSrt,
            fallbackSrt := (s.world v).fallbackSrt }).res
          = procResult be.cfg be.env (be.ienv v) (R v).1 (R v).2 := by
        rw [processOneVideo_res]
        simp only [noSpeechCachedHit_setScanFields]
        rw [hv.1, hv.2]
      simp only [hres, List.map_cons]
      simp

/-- The uncancelled `run_batch` over distinct items: the ordered Result
list is the per-item predicted result of the incoming world; unlisted
cells keep their subtitle files and no-speech guards; and for a
non-empty filtered list the final progress sample reports
`files done = files total = ` the filtered count. -/
theorem runBatch_false_spec (be : BatchEnv ι) (videos : List ι)
    (w : ι → ItemState) (uc cc : Nat)
    (hnd : (filterVideosForRun be.cfg.existingSrtMode
        (fun v => (w v).finalSrt.isSome) videos).Nodup) :
    (runBatch be (fun _ => false) videos w uc cc).results
      = (filterVideosForRun be.cfg.existingSrtMode
          (fun v => (w v).finalSrt.isSome) videos).map (predictedResult be w)
    ∧ (∀ j, j ∉ filterVideosForRun be.cfg.existingSrtMode
          (fun v => (w v).finalSrt.isSome) videos →
        ((runBatch be (fun _ => false) videos w uc cc).world j).finalSrt
            = (w j).finalSrt
        ∧ ((runBatch be (fun _ => false) videos w uc cc).world j).fallbackSrt
            = (w j).fallbackSrt
        ∧ ∀ sig, noSpeechCachedHit
            ((runBatch be (fun _ => false) videos w uc cc).world j).meta sig
            = noSpeechCachedHit ((w j)).meta sig)
    ∧ ((filterVideosForRun be.cfg.existingSrtMode
          (fun v => (w v).finalSrt.isSome) videos) = [] →
        (runBatch be (fun _ => false) videos w uc cc).samples = [])
    ∧ ((filterVideosForRun be.cfg.existingSrtMode
          (fun v => (w v).finalSrt.isSome) videos) ≠ [] →
        ∃ smp, (runBatch be (fun _ => false) videos w uc cc).samples.getLast?
            = some smp
          ∧ smp.done = (((filterVideosForRun be.cfg.existingSrtMode
              (fun v => (w v).finalSrt.isSome) videos).length : Nat) : Int)
          ∧ smp.total = (((filterVideosForRun be.cfg.existingSrtMode
              (fun v => (w v).finalSrt.isSome) videos).length : Nat) : Int)) := by
  set F := filterVideosForRun be.cfg.existingSrtMode
      (fun v => (w v).finalSrt.isSome) videos with hF
  have hspec := scanLoop_false_spec be F ⟨w, uc, cc⟩
  rcases hscan : scanLoop be (fun _ => false) F ⟨w, uc, cc⟩ with ⟨s1, durs, cflag⟩
  rw [hscan] at hspec
  have hcflag : cflag = false := hspec.1
  subst hcflag
  have hdlen : durs.length = F.length := hspec.2.2.1
  have hmapfst : (F.zip durs).map Prod.fst = F :=
    List.map_fst_zip F durs (by omega)
  have hrb : runBatch be (fun _ => false) videos w uc cc
      = { results := (processLoop be (fun _ => false) F.length durs.sum
            (F.zip durs) ⟨s1.world, s1.uuidCtr, s1.checkCtr, [], [], 0, 0⟩).results,
          samples := (processLoop be (fun _ => false) F.length durs.sum
            (F.zip durs) ⟨s1.world, s1.uuidCtr, s1.checkCtr, [], [], 0, 0⟩).samples,
          world := (processLoop be (fun _ => false) F.length durs.sum
            (F.zip durs) ⟨s1.world, s1.uuidCtr, s1.checkCtr, [], [], 0, 0⟩).world,
          uuidCtr := (processLoop be (fun _ => false) F.length durs.sum
            (F.zip durs) ⟨s1.world, s1.uuidCtr, s1.checkCtr, [], [], 0, 0⟩).uuidCtr,
          checkCtr := (processLoop be (fun _ => false) F.length durs.sum
            (F.zip durs) ⟨s1.world, s1.uuidCtr, s1.checkCtr, [], [], 0, 0⟩).checkCtr } := by
    simp only [runBatch, ← hF, hscan, Bool.false_eq_true, if_false]
  have hworld1 : ∀ j, ((s1.world j).finalSrt = (w j).finalSrt
      ∧ (s1.world j).fallbackSrt = (w j).fallbackSrt) := by
    intro j
    exact ⟨(hspec.2.2.2 j).1, (hspec.2.2.2 j).2⟩
  have hrel1 : ∀ j sig, noSpeechCachedHit (s1.world j).meta sig
      = noSpeechCachedHit (w j).meta sig := by
    intro j sig
    have := scanLoop_rel be F ⟨w, uc, cc⟩ j sig
    rw [hscan] at this
    exact this
  refine ⟨?_, ?_, ?_, ?_⟩
  · rw [hrb]
    simp only []
    rw [processLoop_false_results_map be F.length durs.sum (F.zip durs) _
      (fun v => (noSpeechCachedHit (w v).meta
          (fileSig (be.ienv v).sizeB (be.ienv v).mtime),
        (w v).finalSrt.isSome)) (by rw [hmapfst]; exact hnd) ?hok]
    case hok =>
      intro v _
      exact ⟨by rw [hrel1], by rw [(hworld1 v).1]⟩
    simp only [List.nil_append]
    have : ∀ p : ι × Rat, p ∈ F.zip durs →
        procResult be.cfg be.env (be.ienv p.1)
          (noSpeechCachedHit (w p.1).meta
            (fileSig (be.ienv p.1).sizeB (be.ienv p.1).mtime))
          ((w p.1).finalSrt.isSome)
        = predictedResult be w p.1 := fun p _ => rfl
    rw [List.map_congr_left this]
    rw [show (fun p : ι × Rat => predictedResult be w p.1)
        = (predictedResult be w) ∘ Prod.fst from rfl]
    rw [← List.map_map, hmapfst]
  · intro j hj
    rw [hrb]
    simp only []
    have hjz : j ∉ (F.zip durs).map Prod.fst := by rw [hmapfst]; exact hj
    rw [processLoop_frame be (fun _ => false) F.length durs.sum (F.zip durs) _ j hjz]
    exact ⟨(hworld1 j).1, (hworld1 j).2, fun sig => hrel1 j sig⟩
  · intro hFnil
    rw [hrb]
    simp only []
    rw [hFnil]
    have : durs = [] := by
      have := hdlen
      rw [hFnil] at this
      simpa using this
    rw [this]
    rfl
  · intro hFne
    rw [hrb]
    simp only []
    have hpne : F.zip durs ≠ [] := by
      intro he
      have := congrArg List.length he
      rw [List.length_zip, hdlen, min_self] at this
      simp at this
      exact hFne this
    rcases processLoop_false_last_sample be F.length durs.sum (F.zip durs)
        ⟨s1.world, s1.uuidCtr, s1.checkCtr, [], [], 0, 0⟩ hpne with
      ⟨smp, hlast, hdone, htot, _, _⟩
    refine ⟨smp, hlast, ?_, htot⟩
    rw [hdone]
    simp only []
    rw [List.length_zip, hdlen, min_self]
    simp

omit [DecidableEq ι] in
/-- Membership in the prefilter output means the fast-skip guard is
off for that item. -/
theorem mem_filterVideosForRun_keep (mode : String) (fs : ι → Bool)
    (videos : List ι) (v : ι)
    (hv : v ∈ filterVideosForRun mode fs videos) :
    shouldSkipFast mode (fs v) = false := by
  by_cases hm : mode = "skip"
  · subst hm
    simp only [filterVideosForRun] at hv
    rw [if_neg (by decide)] at hv
    have := List.of_mem_filter hv
    simpa using this
  · simp [shouldSkipFast, hm]

/-- `run_batch` leaves the whole cell of every unlisted item untouched. -/
theorem runBatch_false_world_frame (be : BatchEnv ι) (videos : List ι)
    (w : ι → ItemState) (uc cc : Nat) (j : ι)
    (hj : j ∉ filterVideosForRun be.cfg.existingSrtMode
        (fun v => (w v).finalSrt.isSome) videos) :
    (runBatch be (fun _ => false) videos w uc cc).world j = w j := by
  set F := filterVideosForRun be.cfg.existingSrtMode
      (fun v => (w v).finalSrt.isSome) videos with hF
  have hspec := scanLoop_false_spec be F ⟨w, uc, cc⟩
  rcases hscan : scanLoop be (fun _ => false) F ⟨w, uc, cc⟩ with ⟨s1, durs, cflag⟩
  rw [hscan] at hspec
  have hcflag : cflag = false := hspec.1
  subst hcflag
  have hdlen : durs.length = F.length := hspec.2.2.1
  have hsw : s1.world j = w j := by
    have := scanLoop_frame be (fun _ => false) F ⟨w, uc, cc⟩ j hj
    rw [hscan] at this
    exact this
  simp only [runBatch, ← hF, hscan, Bool.false_eq_true, if_false]
  have hjz : j ∉ (F.zip durs).map Prod.fst := by
    rw [List.map_fst_zip F durs (by omega)]
    exact hj
  rw [processLoop_frame be (fun _ => false) F.length durs.sum (F.zip durs) _ j hjz]
  exact hsw

/-- The final progress sample of an uncancelled `run_batch` over distinct
items: files done = files total = the filtered count, and both work
fields are the truncated sum of the scanned durations, each read off the
item's incoming cell. -/
theorem runBatch_false_last_sample (be : BatchEnv ι) (videos : List ι)
    (w : ι → ItemState) (uc cc : Nat)
    (hnd : (filterVideosForRun be.cfg.existingSrtMode
        (fun v => (w v).finalSrt.isSome) videos).Nodup)
    (hne : filterVideosForRun be.cfg.existingSrtMode
        (fun v => (w v).finalSrt.isSome) videos ≠ []) :
    ∃ smp, (runBatch be (fun _ => false) videos w uc cc).samples.getLast?
        = some smp
      ∧ smp.done = (((filterVideosForRun be.cfg.existingSrtMode
          (fun v => (w v).finalSrt.isSome) videos).length : Nat) : Int)
      ∧ smp.total = (((filterVideosForRun be.cfg.existingSrtMode
          (fun v => (w v).finalSrt.isSome) videos).length : Nat) : Int)
      ∧ smp.doneWork = pyInt (((filterVideosForRun be.cfg.existingSrtMode
          (fun v => (w v).finalSrt.isSome) videos).map
            (fun v => (scanItem be ⟨w, uc, cc⟩ v).2)).sum)
      ∧ smp.totalWork = pyInt (((filterVideosForRun be.cfg.existingSrtMode
          (fun v => (w v).finalSrt.isSome) videos).map
            (fun v => (scanItem be ⟨w, uc, cc⟩ v).2)).sum) := by
  set F := filterVideosForRun be.cfg.existingSrtMode
      (fun v => (w v).finalSrt.isSome) videos with hF
  have hspec := scanLoop_false_spec be F ⟨w, uc, cc⟩
  rcases hscan : scanLoop be (fun _ => false) F ⟨w, uc, cc⟩ with ⟨s1, durs, cflag⟩
  rw [hscan] at hspec
  have hcflag : cflag = false := hspec.1
  subst hcflag
  have hdlen : durs.length = F.length := hspec.2.2.1
  have hdurs : durs = F.map (fun v => (scanItem be ⟨w, uc, cc⟩ v).2) := by
    have := scanLoop_durs be F ⟨w, uc, cc⟩ hnd
    rw [hscan] at this
    exact this
  have hpne : F.zip durs ≠ [] := by
    intro he
    have := congrArg List.length he
    rw [List.length_zip, hdlen, min_self] at this
    simp at this
    exact hne this
  rcases processLoop_false_last_sample be F.length durs.sum (F.zip durs)
      ⟨s1.world, s1.uuidCtr, s1.checkCtr, [], [], 0, 0⟩ hpne with
    ⟨smp, hlast, hdone, htot, hdw, htw⟩
  refine ⟨smp, ?_, ?_, htot, ?_, ?_⟩
  · simp only [runBatch, ← hF, hscan, Bool.false_eq_true, if_false]
    exact hlast
  · rw [hdone]
    simp only []
    rw [List.length_zip, hdlen, min_self]
    simp
  · rw [hdw]
    simp only []
    rw [List.map_snd_zip F durs (by omega), zero_add, hdurs]
  · rw [htw, hdurs]

/-- The chunk loop of the service: over chunks whose concatenation is
duplicate-free and all fast-keep, the collected Results are the
predicted results of the incoming world in order, and the final mapped
sample reports `global done + flattened length` files done out of the
global total. -/
theorem serviceChunkLoop_spec (be : BatchEnv ι) (totalAll : Nat) :
    ∀ (parts : List (List ι)) (gdone : Nat) (w : ι → ItemState) (uc cc : Nat),
    parts.flatten.Nodup →
    (∀ v ∈ parts.flatten,
        shouldSkipFast be.cfg.existingSrtMode ((w v).finalSrt.isSome) = false) →
    (serviceChunkLoop be totalAll parts gdone w uc cc).1
        = parts.flatten.map (predictedResult be w)
    ∧ (parts.flatten = [] →
        (serviceChunkLoop be totalAll parts gdone w uc cc).2.1 = [])
    ∧ (parts.flatten ≠ [] →
        ∃ smp, (serviceChunkLoop be totalAll parts gdone w uc cc).2.1.getLast?
            = some smp
          ∧ smp.done = ((gdone + parts.flatten.length : Nat) : Int)
          ∧ smp.total = (totalAll : Int)) := by
  intro parts
  induction parts with
  | nil =>
      intro gdone w uc cc _ _
      exact ⟨rfl, fun _ => rfl, fun h => absurd rfl h⟩
  | cons part rest ih =>
      intro gdone w uc cc hnd hkeep
      rw [List.flatten_cons] at hnd hkeep
      have hndp : part.Nodup := hnd.of_append_left
      have hndr : rest.flatten.Nodup := hnd.of_append_right
      have hdisj : ∀ v ∈ rest.flatten, v ∉ part := by
        intro v hv hvp
        exact (List.disjoint_of_nodup_append hnd) hvp hv
      have hkeepP : filterVideosForRun be.cfg.existingSrtMode
          (fun v => (w v).finalSrt.isSome) part = part :=
        filterVideosForRun_all_keep _ _ _
          (fun v hv => hkeep v (List.mem_append_left _ hv))
      have hs := runBatch_false_spec be part w uc cc (by rw [hkeepP]; exact hndp)
      set out := runBatch be (fun _ => false) part w uc cc with hout
      have hsres : out.results = part.map (predictedResult be w) := by
        rw [hs.1, hkeepP]
      have hframe : ∀ v ∈ rest.flatten,
          (out.world v).finalSrt = (w v).finalSrt
          ∧ ∀ sig, noSpeechCachedHit (out.world v).meta sig
              = noSpeechCachedHit (w v).meta sig := by
        intro v hv
        have := hs.2.1 v (by rw [hkeepP]; exact hdisj v hv)
        exact ⟨this.1, this.2.2⟩
      have hkeepR : ∀ v ∈ rest.flatten,
          shouldSkipFast be.cfg.existingSrtMode
            ((out.world v).finalSrt.isSome) = false := by
        intro v hv
        rw [(hframe v hv).1]
        exact hkeep v (List.mem_append_right _ hv)
      have ihr := ih (gdone + part.length) out.world out.uuidCtr out.checkCtr
        hndr hkeepR
      rcases hrec : serviceChunkLoop be totalAll rest (gdone + part.length)
          out.world out.uuidCtr out.checkCtr with ⟨rs, ss, w2, uc2, cc2⟩
      rw [hrec] at ihr
      have ihr1 : rs = rest.flatten.map (predictedResult be out.world) := ihr.1
      have ihr2 : rest.flatten = [] → ss = [] := ihr.2.1
      have ihr3 : rest.flatten ≠ [] → ∃ smp, ss.getLast? = some smp
          ∧ smp.done = ((gdone + part.length + rest.flatten.length : Nat) : Int)
          ∧ smp.total = (totalAll : Int) := ihr.2.2
      have hmapcongr : rest.flatten.map (predictedResult be out.world)
          = rest.flatten.map (predictedResult be w) := by
        apply List.map_congr_left
        intro v hv
        simp only [predictedResult]
        rw [(hframe v hv).1, (hframe v hv).2 _]
      have hunf : serviceChunkLoop be totalAll (part :: rest) gdone w uc cc
          = (out.results ++ rs,
             out.samples.map (fun smp =>
               { smp with done := (gdone : Int) + smp.done,
                          total := (totalAll : Int) }) ++ ss,
             w2, uc2, cc2) := by
        simp only [serviceChunkLoop, ← hout, hrec]
      rw [hunf]
      refine ⟨?_, ?_, ?_⟩
      · simp only [List.flatten_cons, List.map_append]
        rw [hsres, ihr1, hmapcongr]
      · intro hflat
        rw [List.flatten_cons] at hflat
        rcases List.append_eq_nil.mp hflat with ⟨hp, hr⟩
        have hsam : out.samples = [] := by
          apply hs.2.2.1
          rw [hkeepP, hp]
        simp only [hsam, List.map_nil, List.nil_append]
        exact ihr2 hr
      · intro hflat
        rw [List.flatten_cons] at hflat ⊢
        by_cases hrf : rest.flatten = []
        · have hp : part ≠ [] := by
            intro hp
            exact hflat (by rw [hp, hrf]; rfl)
          have hss : ss = [] := ihr2 hrf
          rcases hs.2.2.2 (by rw [hkeepP]; exact hp) with ⟨smp, hl, hd, ht⟩
          rw [hkeepP] at hd ht
          refine ⟨⟨(gdone : Int) + smp.done, (totalAll : Int), smp.elapsed,
            smp.doneWork, smp.totalWork, smp.didWork⟩, ?_, ?_, rfl⟩
          · rw [hss, List.append_nil, List.getLast?_map, hl]
            rfl
          · simp only [hd, hrf, List.append_nil]
            push_cast
            ring
        · rcases ihr3 hrf with ⟨smp, hl, hd, ht⟩
          have hssne : ss ≠ [] := by
            intro h
            rw [h] at hl
            cases hl
          refine ⟨smp, ?_, ?_, ht⟩
          · rw [List.getLast?_append_of_ne_nil _ hssne, hl]
          · rw [hd]
            simp only [List.length_append]
            push_cast
            ring

/-- The chunk loop yields no samples for an empty chunk list. -/
theorem serviceChunkLoop_samples_nil (be : BatchEnv ι) (T g uc cc : Nat)
    (w : ι → ItemState) :
    (serviceChunkLoop be T [] g w uc cc).2.1 = ([] : List Sample) := rfl

/-- One chunk step of the service loop, at the level of samples: the
chunk's own samples mapped through the global-progress wrapper, then
the remaining chunks against the updated world. -/
theorem serviceChunkLoop_samples_cons (be : BatchEnv ι) (T : Nat)
    (part : List ι) (parts : List (List ι)) (g : Nat) (w : ι → ItemState)
    (uc cc : Nat) :
    (serviceChunkLoop be T (part :: parts) g w uc cc).2.1
      = (runBatch be (fun _ => false) part w uc cc).samples.map
          (fun smp => { smp with done := (g : Int) + smp.done, total := (T : Int) })
        ++ (serviceChunkLoop be T parts (g + part.length)
            (runBatch be (fun _ => false) part w uc cc).world
            (runBatch be (fun _ => false) part w uc cc).uuidCtr
            (runBatch be (fun _ => false) part w uc cc).checkCtr).2.1 := by
  rcases hrec : serviceChunkLoop be T parts (g + part.length)
      (runBatch be (fun _ => false) part w uc cc).world
      (runBatch be (fun _ => false) part w uc cc).uuidCtr
      (runBatch be (fun _ => false) part w uc cc).checkCtr with ⟨rs, ss, w2, uc2, cc2⟩
  simp only [serviceChunkLoop, hrec]

/-- With an identity prefilter, a non-empty list and the threshold
exceeded, the service takes the chunked path. -/
theorem serviceRun_chunked_eq (be : BatchEnv ι) (chunkSize chunkThresh : Int)
    (videos : List ι) (w0 : ι → ItemState)
    (hfid : filterVideosForRun be.cfg.existingSrtMode
        (fun v => (w0 v).finalSrt.isSome) videos = videos)
    (hne : videos ≠ [])
    (hthr : ((videos.length : Int) > chunkThresh)) :
    serviceRun be chunkSize chunkThresh videos w0
      = ((serviceChunkLoop be videos.length (chunked videos chunkSize)
            0 w0 0 0).1,
         (serviceChunkLoop be videos.length (chunked videos chunkSize)
            0 w0 0 0).2.1) := by
  rcases hscl : serviceChunkLoop be videos.length (chunked videos chunkSize)
      0 w0 0 0 with ⟨rs, ss, wE, uE, cE⟩
  simp only [serviceRun, hfid]
  rw [if_neg (by simp only [List.isEmpty_iff]; exact hne), if_pos hthr, hscl]

/-- C2: chunk transparency, corrected. Over a video list whose
prefiltered form is duplicate-free and longer than the chunk threshold,
the chunked service path returns the same ordered Result list as one
unchunked `run_batch` over the same list, and the final progress sample
of each side reports the same files-done and files-total counts (the
filtered length). The spec's further promise that the final work
done/total also match is dropped: each chunk's `run_batch` recomputes
`total_work` from its own slice, so those fields reset per chunk. -/
theorem claim_C2 (be : BatchEnv ι) (chunkSize chunkThresh : Int)
    (videos : List ι) (w0 : ι → ItemState)
    (hnd : (filterVideosForRun be.cfg.existingSrtMode
        (fun v => (w0 v).finalSrt.isSome) videos).Nodup)
    (hthr0 : 0 ≤ chunkThresh)
    (hthr : ((filterVideosForRun be.cfg.existingSrtMode
        (fun v => (w0 v).finalSrt.isSome) videos).length : Int) > chunkThresh) :
    (serviceRun be chunkSize chunkThresh videos w0).1
        = (runBatch be (fun _ => false) videos w0 0 0).results
    ∧ ∃ s1 s2,
        (serviceRun be chunkSize chunkThresh videos w0).2.getLast? = some s1
        ∧ (runBatch be (fun _ => false) videos w0 0 0).samples.getLast? = some s2
        ∧ s1.done = s2.done ∧ s1.total = s2.total := by
  set F := filterVideosForRun be.cfg.existingSrtMode
      (fun v => (w0 v).finalSrt.isSome) videos with hF
  have hne : F ≠ [] := by
    intro h
    rw [h] at hthr
    simp at hthr
    omega
  rcases hscl : serviceChunkLoop be F.length (chunked F chunkSize) 0 w0 0 0
    with ⟨rs, ss, wE, ucE, ccE⟩
  have hsr : serviceRun be chunkSize chunkThresh videos w0 = (rs, ss) := by
    simp only [serviceRun, ← hF]
    rw [if_neg (by simp only [List.isEmpty_iff]; exact hne), if_pos hthr, hscl]
  have hflat : (chunked F chunkSize).flatten = F := (chunkGo_spec _ F).1
  have hkeep : ∀ v ∈ (chunked F chunkSize).flatten,
      shouldSkipFast be.cfg.existingSrtMode ((w0 v).finalSrt.isSome) = false := by
    intro v hv
    rw [hflat] at hv
    exact mem_filterVideosForRun_keep be.cfg.existingSrtMode _ videos v hv
  have hscls := serviceChunkLoop_spec be F.length (chunked F chunkSize) 0 w0 0 0
    (by rw [hflat]; exact hnd) hkeep
  rw [hscl] at hscls
  have h1 : rs = (chunked F chunkSize).flatten.map (predictedResult be w0) :=
    hscls.1
  rw [hflat] at h1
  have hlast := hscls.2.2 (by rw [hflat]; exact hne)
  obtain ⟨smp, hl, hd, ht⟩ := hlast
  have hl2 : ss.getLast? = some smp := hl
  have hdone : smp.done = (F.length : Int) := by
    rw [hd, hflat]
    simp
  have hs2 := runBatch_false_spec be videos w0 0 0 hnd
  obtain ⟨smp2, hl3, hd3, ht3⟩ := hs2.2.2.2 hne
  refine ⟨?_, smp, smp2, ?_, hl3, ?_, ?_⟩
  · rw [hsr]
    show rs = _
    rw [h1]
    exact hs2.1.symm
  · rw [hsr]
    exact hl2
  · rw [hdone, hd3]
  · rw [ht, ht3]

end Batch

/-- A concrete batch environment over `Nat`-indexed items: skip mode,
English transcripts, no probe output. -/
def beC7 : BatchEnv Nat :=
  ⟨⟨"medium", "skip", "all", "dev", "m"⟩,
   ⟨fun _ => some ["x"], fun _ s => s, 0⟩,
   fun n => ⟨"v" ++ toString n, 1, 0, .ok ("en", "hello"), none⟩,
   fun _ => "u"⟩

/-- A fresh world: empty sidecars, no subtitle files. -/
def freshWorld : Nat → ItemState := fun _ => ⟨Json.obj [], none, none⟩

/-- A flag that first reads true at the 20th read — right after the 5th
of 10 items completes (10 scan reads + 2 reads per item). -/
def cancelAt19 : Nat → Bool := fun c => decide (19 ≤ c)

/-- Witness for C7: 10 items, flag tripped after the 5th finishes —
exactly 5 Results, a prefix of the uncancelled run, and item 7's
subtitle files are untouched. -/
theorem claim_C7_witness :
    (runBatch beC7 cancelAt19 (List.range 10) freshWorld 0 0).results.length = 5
    ∧ (runBatch beC7 cancelAt19 (List.range 10) freshWorld 0 0).results
        = (runBatch beC7 (fun _ => false) (List.range 10) freshWorld 0 0).results.take 5
    ∧ ((runBatch beC7 cancelAt19 (List.range 10) freshWorld 0 0).world 7).finalSrt
        = (freshWorld 7).finalSrt := by
  have hlen : (filterVideosForRun beC7.cfg.existingSrtMode
      (fun v => (freshWorld v).finalSrt.isSome) (List.range 10)).length = 10 := by
    with_unfolding_all rfl
  have h := claim_C7 beC7 cancelAt19 (List.range 10) freshWorld 4
    (by rw [hlen]; omega)
    (by intro c hc
        rw [hlen] at hc
        simp only [cancelAt19, decide_eq_false_iff_not]
        omega)
    (by rw [hlen]; with_unfolding_all rfl)
  refine ⟨h.1, h.2.1, (h.2.2 7 ?_).1⟩
  rw [show (filterVideosForRun beC7.cfg.existingSrtMode
      (fun v => (freshWorld v).finalSrt.isSome) (List.range 10)).take (4 + 1)
      = [0, 1, 2, 3, 4] from by with_unfolding_all rfl]
  decide

/-- A probe output declaring a one-second file (`format.duration`). -/
def ieC2 : ItemEnv :=
  ⟨"clip", 1, 0, Except.error "decode failure",
   some [("format", Json.obj [("duration", Json.str "1.0")])]⟩

/-- A replace-mode batch environment over `Nat`-indexed items, each of
which probes to a one-second duration. -/
def beC2 : BatchEnv Nat :=
  ⟨⟨"medium", "replace", "all", "dev", "m"⟩,
   ⟨fun _ => none, fun _ s => s, 0⟩,
   fun _ => ieC2,
   fun _ => "u"⟩

/-- A video list long enough to trip the chunk threshold of 1500. -/
def vidsC2 : List Nat := List.range 1501

/-- In replace mode the prefilter keeps everything, whatever the world. -/
theorem filterC2_id (fs : Nat → Bool) (vids : List Nat) :
    filterVideosForRun beC2.cfg.existingSrtMode fs vids = vids := by
  simp only [filterVideosForRun]
  rw [if_pos (by decide)]

/-- Every item with a fresh cell scans to a one-second duration. -/
theorem scanItem_beC2_fresh (w : Nat → ItemState) (uc cc : Nat) (v : Nat)
    (h : w v = freshWorld v) :
    (scanItem beC2 ⟨w, uc, cc⟩ v).2 = 1 := by
  rw [scanItem_dur_cell beC2 ⟨w, uc, cc⟩ ⟨freshWorld, 0, 0⟩ v
    (show w v = freshWorld v from h)]
  with_unfolding_all rfl

/-- The last element of a three-part concatenation with a non-empty
final part. -/
theorem getLast_append3 {α : Type} (p q r : List α) (hr : r ≠ []) :
    (p ++ (q ++ r)).getLast? = r.getLast? := by
  rw [List.getLast?_append_of_ne_nil p (fun h => hr (List.append_eq_nil.mp h).2),
      List.getLast?_append_of_ne_nil q hr]

set_option maxRecDepth 8000 in
/-- Counterexample to C2 as stated: 1501 one-second items in replace
mode, chunk size 750 and threshold 1500. The chunked service path ends
with a final progress sample whose work done/total fields cover only the
last chunk (1 second of 1 second), while the unchunked `run_batch` over
the same items ends reporting 1501 of 1501 — the final work totals
differ, so chunked and unchunked runs do not report the same final
progress totals. -/
theorem claim_C2_counterexample :
    (∃ s1, (serviceRun beC2 750 1500 vidsC2 freshWorld).2.getLast? = some s1
        ∧ s1.doneWork = 1 ∧ s1.totalWork = 1)
    ∧ ∃ s2, (runBatch beC2 (fun _ => false) vidsC2 freshWorld 0 0).samples.getLast?
          = some s2
        ∧ s2.doneWork = 1501 ∧ s2.totalWork = 1501 := by
  have hlen : vidsC2.length = 1501 := List.length_range 1501
  have hnd : vidsC2.Nodup := List.nodup_range 1501
  have hne : vidsC2 ≠ [] := by
    intro h
    have h2 := hlen
    rw [h] at h2
    simp at h2
  set a1 := vidsC2.take 750 with ha1v
  set d1 := vidsC2.drop 750 with hd1v
  set a2 := d1.take 750 with ha2v
  set d2 := d1.drop 750 with hd2v
  have ha1len : a1.length = 750 := by
    have h2 : a1.length = min 750 1501 := by rw [ha1v, List.length_take, hlen]
    omega
  have hlend1 : d1.length = 751 := by
    have h2 : d1.length = 1501 - 750 := by rw [hd1v, List.length_drop, hlen]
    omega
  have ha2len : a2.length = 750 := by
    have h2 : a2.length = min 750 751 := by rw [ha2v, List.length_take, hlend1]
    omega
  have hlend2 : d2.length = 1 := by
    have h2 : d2.length = 751 - 750 := by rw [hd2v, List.length_drop, hlend1]
    omega
  obtain ⟨x, hx⟩ := List.length_eq_one.mp hlend2
  have hsplit1 : vidsC2 = a1 ++ d1 := (List.take_append_drop 750 vidsC2).symm
  have hsplit2 : d1 = a2 ++ [x] := by
    rw [← hx]
    exact (List.take_append_drop 750 d1).symm
  have hvsplit : vidsC2 = a1 ++ (a2 ++ [x]) := by rw [hsplit1, hsplit2]
  have hndsplit : (a1 ++ (a2 ++ [x])).Nodup := by rw [← hvsplit]; exact hnd
  have hx1 : x ∉ a1 := fun hmem =>
    (List.disjoint_of_nodup_append hndsplit) hmem
      (List.mem_append_right a2 (by simp))
  have hx2 : x ∉ a2 := fun hmem =>
    (List.disjoint_of_nodup_append hndsplit.of_append_right) hmem (by simp)
  have hchunk : chunked vidsC2 750 = [a1, a2, [x]] := by
    have e1 : chunked vidsC2 750 = chunkGo 749 vidsC2 := by with_unfolding_all rfl
    rw [e1, hvsplit]
    rw [chunkGo_append 749 a1 (a2 ++ [x]) (by rw [ha1len])]
    rw [chunkGo_append 749 a2 [x] (by rw [ha2len])]
    simp [chunkGo]
  rcases hscl : serviceChunkLoop beC2 vidsC2.length (chunked vidsC2 750) 0
      freshWorld 0 0 with ⟨rs, ss, wE, uE, cE⟩
  have hsr : serviceRun beC2 750 1500 vidsC2 freshWorld = (rs, ss) := by
    have h := serviceRun_chunked_eq beC2 750 1500 vidsC2 freshWorld
      (filterC2_id _ _) hne (by rw [hlen]; decide)
    rw [hscl] at h
    exact h
  have hsseq : (serviceChunkLoop beC2 vidsC2.length (chunked vidsC2 750) 0
      freshWorld 0 0).2.1 = ss := by rw [hscl]
  rw [hchunk] at hsseq
  rw [serviceChunkLoop_samples_cons, serviceChunkLoop_samples_cons,
      serviceChunkLoop_samples_cons, serviceChunkLoop_samples_nil,
      List.append_nil] at hsseq
  set O1 := runBatch beC2 (fun _ => false) a1 freshWorld 0 0 with hO1v
  set O2 := runBatch beC2 (fun _ => false) a2 O1.world O1.uuidCtr O1.checkCtr
    with hO2v
  have hw1 : O1.world x = freshWorld x := by
    rw [hO1v]
    exact runBatch_false_world_frame beC2 a1 freshWorld 0 0 x
      (by rw [filterC2_id]; exact hx1)
  have hw2 : O2.world x = freshWorld x := by
    rw [hO2v]
    rw [runBatch_false_world_frame beC2 a2 O1.world O1.uuidCtr O1.checkCtr x
      (by rw [filterC2_id]; exact hx2)]
    exact hw1
  have h3spec := runBatch_false_last_sample beC2 [x] O2.world O2.uuidCtr
    O2.checkCtr (by rw [filterC2_id]; exact List.nodup_singleton x)
    (by rw [filterC2_id]; simp)
  obtain ⟨smp3, hl3s, hd3s, ht3s, hdw3, htw3⟩ := h3spec
  rw [filterC2_id] at hdw3 htw3
  simp only [List.map_cons, List.map_nil, List.sum_cons, List.sum_nil]
    at hdw3 htw3
  have hdur3 : (scanItem beC2 ⟨O2.world, O2.uuidCtr, O2.checkCtr⟩ x).2 = 1 :=
    scanItem_beC2_fresh O2.world O2.uuidCtr O2.checkCtr x hw2
  rw [hdur3, add_zero] at hdw3 htw3
  rw [show pyInt 1 = (1 : Int) from by with_unfolding_all rfl] at hdw3 htw3
  set O3 := runBatch beC2 (fun _ => false) [x] O2.world O2.uuidCtr O2.checkCtr
    with hO3v
  have hO3ne : O3.samples ≠ [] := by
    intro h
    rw [h] at hl3s
    simp at hl3s
  have hex : ∃ sl, ss.getLast? = some sl ∧ sl.doneWork = smp3.doneWork
      ∧ sl.totalWork = smp3.totalWork := by
    rw [← hsseq, getLast_append3, List.getLast?_map, hl3s]
    · exact ⟨_, rfl, rfl, rfl⟩
    · simp only [ne_eq, List.map_eq_nil_iff]
      exact hO3ne
  obtain ⟨sl, hsl, hsld, hslt⟩ := hex
  constructor
  · exact ⟨sl, by rw [hsr]; exact hsl, hsld.trans hdw3, hslt.trans htw3⟩
  · have hU := runBatch_false_last_sample beC2 vidsC2 freshWorld 0 0
      (by rw [filterC2_id]; exact hnd) (by rw [filterC2_id]; exact hne)
    obtain ⟨smp2, hl2s, hd2s, ht2s, hdw2, htw2⟩ := hU
    rw [filterC2_id] at hdw2 htw2
    have hmapc : vidsC2.map (fun v => (scanItem beC2 ⟨freshWorld, 0, 0⟩ v).2)
        = vidsC2.map (fun _ => (1 : Rat)) :=
      List.map_congr_left (fun v _ => scanItem_beC2_fresh freshWorld 0 0 v rfl)
    rw [hmapc, List.map_const', List.sum_replicate, hlen, nsmul_eq_mul, mul_one]
      at hdw2 htw2
    rw [show pyInt ((1501 : Nat) : Rat) = (1501 : Int) from
      by with_unfolding_all rfl] at hdw2 htw2
    exact ⟨smp2, hl2s, hdw2, htw2⟩

/-- Witness for C2: two fresh items, chunk size 1, threshold 0 — the
chunked path and the unchunked batch agree on the Result list and on the
final files done/total. -/
theorem claim_C2_witness :
    (filterVideosForRun beC2.cfg.existingSrtMode
        (fun v => (freshWorld v).finalSrt.isSome) [0, 1]).Nodup
    ∧ ((0 : Int) ≤ 0)
    ∧ (((filterVideosForRun beC2.cfg.existingSrtMode
        (fun v => (freshWorld v).finalSrt.isSome) [0, 1]).length : Int) > 0)
    ∧ ((serviceRun beC2 1 0 [0, 1] freshWorld).1
          = (runBatch beC2 (fun _ => false) [0, 1] freshWorld 0 0).results
      ∧ ∃ s1 s2,
          (serviceRun beC2 1 0 [0, 1] freshWorld).2.getLast? = some s1
          ∧ (runBatch beC2 (fun _ => false) [0, 1] freshWorld 0 0).samples.getLast?
              = some s2
          ∧ s1.done = s2.done ∧ s1.total = s2.total) :=
  ⟨by with_unfolding_all decide, by decide, by with_unfolding_all decide,
   claim_C2 beC2 1 0 [0, 1] freshWorld (by with_unfolding_all decide) (by decide)
     (by with_unfolding_all decide)⟩

end S2P
